import Mathlib

/-!
Verification of the hugr type-checking / structural-validation core.

This file gives a shallow embedding, in Lean, of the data model and
operations of the hugr repository (the `types` module: bounds, sums,
custom types, polymorphic function types and their substitution and
instantiation machinery; the extension registry; and the structural
validator's root check), together with theorems settling the claims of
the specification against that embedding.

Conventions used throughout:
* Rust `Vec<T>` / slices become `List`.
* Machine integers (`u8`, `u64`, `usize`) become `Nat`; the only place a
  width matters is `SumType::new`'s `u8::MAX` comparison, kept as a
  literal `255`.
* Fallible Rust code (`Result<T, E>`) becomes `Except E T`.
* Code that can `panic!` / `expect` becomes `Option`-valued, with `none`
  standing for the panic; code that can both fail and panic becomes
  `Option (Except E T)`.
* Rust's derived structural `PartialEq` becomes Lean's structural `=`.
* Names follow the source (`snake_case` methods kept) except where Lean
  reserves the word: the Rust struct `Type` is called `Ty`, and enum
  variants are lower-cased (`TypeArg::Type` becomes `TypeArg.type`).

Parts of the repository that the claims depend on but whose sources are
not available (the `type_param` module, the row/function-type
substitution plumbing, `TypeDef::check_custom`, `ExtensionOp::new`, and
the graph validator itself) are modelled from the specification; each
such definition carries a doc comment starting with
`Modelled from the spec:`.
-/

namespace Hugr

/-- Bounds on the valid operations on a type in a HUGR program.
Mirrors `TypeBound` (hugr-core/src/types.rs). -/
inductive TypeBound where
  /-- The equality operation is valid on this type. -/
  | eq
  /-- The type can be copied in the program. -/
  | copyable
  /-- No bound on the type. -/
  | any
deriving DecidableEq

namespace TypeBound

/-- Report if this bound contains another.
Mirrors `TypeBound::contains`: `matches!((self, other), (Any, _) | (_, Eq) | (Copyable, Copyable))`. -/
def contains : TypeBound → TypeBound → Bool
  | .any, _ => true
  | _, .eq => true
  | .copyable, .copyable => true
  | _, _ => false

/-- Returns the smallest bound containing both the receiver and argument.
Mirrors `TypeBound::union`. -/
def union (a b : TypeBound) : TypeBound :=
  if a.contains b then a else b

end TypeBound

/-- Calculate the least upper bound for a list of bounds.
Mirrors the free function `least_upper_bound` (hugr-core/src/types.rs),
a `fold_while` from `Eq` that stops early at `Any`. -/
def least_upper_bound : List TypeBound → TypeBound :=
  go .eq
where
  /-- The fold; `Done(Any)` short-circuiting gives the same value as
  continuing, so the early exit is semantics-preserving. -/
  go : TypeBound → List TypeBound → TypeBound
  | acc, [] => acc
  | acc, b :: rest =>
      if acc = .any ∨ b = .any then .any else go (acc.union b) rest

/-- Upper bound of a bounded-natural-number parameter: `none` means
unbounded, `some b` admits exactly the values `< b`.
Modelled from the spec: the kind system's "bounded natural number"
parameters (`UpperBound` in the missing `type_param` module). -/
def UpperBound := Option Nat
deriving DecidableEq

/-- A value is valid for the bound when it is below it (or the bound is
absent). -/
def UpperBound.valid_value : UpperBound → Nat → Bool
  | none, _ => true
  | some b, n => n < b

/-- Containment of bounded-nat upper bounds: the unbounded bound contains
everything, `some b1` contains `some b2` when `b1 ≥ b2`. -/
def UpperBound.contains : UpperBound → UpperBound → Bool
  | none, _ => true
  | some b1, some b2 => b2 ≤ b1
  | some _, none => false

/-- A kind a generic site can be instantiated with.
Modelled from the spec: "kinds a generic site can be instantiated with
(a single type of some bound, a list of types of some bound — used for
row variables, a bounded natural number, an extension-requirement-set,
etc.)" (`TypeParam` in the missing `type_param` module). -/
inductive TypeParam where
  /-- Argument is a type with at most the given bound. -/
  | type (b : TypeBound)
  /-- Argument is a natural number below the upper bound. -/
  | boundedNat (bound : UpperBound)
  /-- Argument is a list of arguments of the inner kind. -/
  | list (param : TypeParam)
  /-- Argument is an extension-requirement set. -/
  | extensions
deriving DecidableEq

namespace TypeParam

/-- The kind of parameter declaring an unbounded natural number,
`TypeParam::max_nat()`. -/
def max_nat : TypeParam := .boundedNat none

/-- `TypeParam::new_list(b)`: the kind of a row variable, a list of
types of bound `b`. -/
def new_list (b : TypeBound) : TypeParam := .list (.type b)

/-- Covariant containment between kinds: an argument declared with the
contained kind can be used where the containing kind is expected.
Modelled from the spec: "Compatibility is structural and covariant in
bound". -/
def contains : TypeParam → TypeParam → Bool
  | .type b1, .type b2 => b1.contains b2
  | .boundedNat b1, .boundedNat b2 => UpperBound.contains b1 b2
  | .list p1, .list p2 => p1.contains p2
  | .extensions, .extensions => true
  | _, _ => false

end TypeParam

/-- A unique identifier for an extension. Rust `ExtensionId` /
`IdentList`; type variables of `Extensions` kind are encoded as the
decimal string of their De Bruijn index (see
`ExtensionSet::insert_type_var` in src/src/extension.rs). -/
abbrev ExtensionId := String

/-- A set of extensions. The Rust `ExtensionSet` is a `HashSet`; we model
it as the list of its members (all set operations used by the claims
rebuild the collection element-wise, so list equality is a faithful,
strictly finer notion than the Rust set equality). -/
abbrev ExtensionSet := List ExtensionId

/-- Decode an `ExtensionSet` member that encodes a type variable.
Mirrors `as_typevar` (src/src/extension.rs): members starting with an
ascii digit are variable encodings. (There, a digit-initial member that
fails to parse panics; such members are never constructed, and we fold
that case into `none`.) -/
def as_typevar (e : ExtensionId) : Option Nat :=
  match e.data.head? with
  | some c => if c.isDigit then e.toNat? else none
  | none => none

/-- An ExtensionSet containing a single type variable.
Mirrors `ExtensionSet::type_var` / `insert_type_var`. -/
def ExtensionSet.type_var (idx : Nat) : ExtensionSet := [toString idx]

/-- An alias declaration: a name together with the bound of the aliased
type. Mirrors `ops::AliasDecl`. -/
structure AliasDecl where
  name : String
  bound : TypeBound
deriving DecidableEq

mutual
/-- A HUGR type: a `TypeEnum` variant paired with its cached least upper
`TypeBound`. Mirrors the Rust tuple struct `Type(TypeEnum, TypeBound)`
(hugr-core/src/types.rs); called `Ty` because `Type` is reserved. -/
inductive Ty where
  | mk (e : TypeEnum) (b : TypeBound)

/-- Core type variants. Mirrors `TypeEnum` (hugr-core/src/types.rs). -/
inductive TypeEnum where
  /-- An instance of a user-defined type, `TypeEnum::Extension`. -/
  | ext (c : CustomType)
  /-- `TypeEnum::Alias`. -/
  | alias (a : AliasDecl)
  /-- `TypeEnum::Function`; in this snapshot the payload is a
  (monomorphic) `FunctionType`. -/
  | function (f : FunctionType)
  /-- `TypeEnum::Variable(usize, TypeBound)`: De Bruijn index and cached
  bound (checked in validation). -/
  | var (idx : Nat) (b : TypeBound)
  /-- `TypeEnum::RowVariable(usize, TypeBound)`: variable standing for a
  row of types of the given bound. -/
  | rowVar (idx : Nat) (b : TypeBound)
  /-- `TypeEnum::Sum`. -/
  | sum (s : SumType)

/-- Representation of a Sum type: either the compact all-empty-variants
form storing only the size, or the general per-variant rows.
Mirrors `SumType` (hugr-core/src/types.rs); `size` is a `u8` in Rust,
kept as `Nat` (every constructor keeps it `≤ 255`). -/
inductive SumType where
  | unit (size : Nat)
  | general (rows : List (List Ty))

/-- An opaque/user-defined type instance: owning extension, type name,
concrete arguments, and the cached bound.
Mirrors `CustomType` (src/src/types/custom.rs). -/
inductive CustomType where
  | mk (extension : ExtensionId) (id : String) (args : List TypeArg) (bound : TypeBound)

/-- A function signature: input row, output row, and the extension
requirements added by the operation.
Mirrors `FunctionType` (hugr-core/src/types/signature.rs). -/
inductive FunctionType where
  | mk (input : List Ty) (output : List Ty) (extension_reqs : ExtensionSet)

/-- A concrete value supplied for a `TypeParam`.
Modelled from the spec: the argument shapes matching the kinds above
(`TypeArg` in the missing `type_param` module). A row variable used as
an argument is represented as `TypeArg.type` of a `rowVar` type, per the
comment in `Substitution::apply_rowvar` (hugr-core/src/types.rs). -/
inductive TypeArg where
  /-- A single type. -/
  | type (ty : Ty)
  /-- A natural number. -/
  | boundedNat (n : Nat)
  /-- A list of arguments. -/
  | sequence (elems : List TypeArg)
  /-- An extension set. -/
  | exts (es : ExtensionSet)
  /-- A use of a declared variable of non-type, non-extensions kind,
  with the cached declaration. -/
  | var (idx : Nat) (cached_decl : TypeParam)
end

namespace CustomType

/-- Creates a new opaque type, `CustomType::new`. -/
def new (id : String) (args : List TypeArg) (extension : ExtensionId)
    (bound : TypeBound) : CustomType :=
  .mk extension id args bound

/-- Returns the bound of this `CustomType`. -/
def bound : CustomType → TypeBound
  | .mk _ _ _ b => b

/-- Unique name of the type. -/
def name : CustomType → String
  | .mk _ i _ _ => i

/-- Type arguments. -/
def args : CustomType → List TypeArg
  | .mk _ _ a _ => a

/-- Parent extension. -/
def extension : CustomType → ExtensionId
  | .mk e _ _ _ => e

end CustomType

namespace FunctionType

/-- Value inputs of the function. -/
def input : FunctionType → List Ty
  | .mk i _ _ => i

/-- Value outputs of the function. -/
def output : FunctionType → List Ty
  | .mk _ o _ => o

/-- The extension requirements added by the operation. -/
def extension_reqs : FunctionType → ExtensionSet
  | .mk _ _ r => r

/-- Create a new signature, `FunctionType::new`. -/
def new (input output : List Ty) : FunctionType :=
  .mk input output []

/-- Signature of an endomorphic function, `FunctionType::new_endo`. -/
def new_endo (row : List Ty) : FunctionType :=
  .mk row row []

/-- Builder method adding extension requirements,
`FunctionType::with_extension_delta` (the union of a list model is
concatenation of the new members). -/
def with_extension_delta (f : FunctionType) (rs : ExtensionSet) : FunctionType :=
  .mk f.input f.output (f.extension_reqs ++ rs)

end FunctionType

namespace SumType

/-- Initialize a new sum type, `SumType::new`: the all-empty-rows form of
length at most `u8::MAX` is compacted to `Unit`. -/
def new (variants : List (List Ty)) : SumType :=
  if variants.length ≤ 255 ∧ variants.all List.isEmpty then .unit variants.length
  else .general variants

/-- New UnitSum with empty tuple variants, `SumType::new_unary`. -/
def new_unary (size : Nat) : SumType := .unit size

/-- New tuple (single row of variants), `SumType::new_tuple`. -/
def new_tuple (types : List Ty) : SumType := new [types]

/-- Report the `tag`'th variant, if it exists; `SumType::get_variant`.
The `Unit` form answers the empty row for every tag below its size. -/
def get_variant : SumType → Nat → Option (List Ty)
  | .unit size, tag => if tag < size then some [] else none
  | .general rows, tag => rows.get? tag

/-- Returns the number of variants in the sum type,
`SumType::num_variants`. -/
def num_variants : SumType → Nat
  | .unit size => size
  | .general rows => rows.length

end SumType

namespace Ty

/-- Report the least upper `TypeBound` (the cached component),
`Type::least_upper_bound`. -/
def least_upper_bound : Ty → TypeBound
  | .mk _ b => b

/-- Report the component `TypeEnum`, `Type::as_type_enum`. -/
def as_type_enum : Ty → TypeEnum
  | .mk e _ => e

/-- Tells if this type is a row variable, `Type::is_row_var`. -/
def is_row_var : Ty → Bool
  | .mk (.rowVar _ _) _ => true
  | _ => false

/-- Report if the type is copyable, `Type::copyable`. -/
def copyable (t : Ty) : Bool :=
  TypeBound.copyable.contains t.least_upper_bound

end Ty

/-- The smallest type bound that covers the whole variant,
`TypeEnum::least_upper_bound` (hugr-core/src/types.rs). For a general
sum this is the least upper bound over the cached bounds of every
element type of every variant row. -/
def TypeEnum.least_upper_bound : TypeEnum → TypeBound
  | .ext c => c.bound
  | .alias a => a.bound
  | .function _ => .copyable
  | .var _ b => b
  | .rowVar _ b => b
  | .sum (.unit _) => .eq
  | .sum (.general rows) =>
      Hugr.least_upper_bound (rows.flatten.map Ty.least_upper_bound)

namespace Ty

/-- `Type::new`: pair a variant with its computed least upper bound. -/
def new (e : TypeEnum) : Ty :=
  .mk e e.least_upper_bound

/-- An empty type row, `Type::EMPTY_TYPEROW`. -/
def EMPTY_TYPEROW : List Ty := []

/-- Unit type (empty tuple), `Type::UNIT`. -/
def UNIT : Ty := .mk (.sum (.unit 1)) .eq

/-- Initialize a new function type, `Type::new_function`. -/
def new_function (f : FunctionType) : Ty :=
  new (.function f)

/-- Initialize a new sum type from the variant rows, `Type::new_sum`
(goes through the canonicalizing `SumType::new`). -/
def new_sum (variants : List (List Ty)) : Ty :=
  new (.sum (SumType.new variants))

/-- Initialize a new tuple type, `Type::new_tuple`: the empty tuple is
`UNIT`, otherwise a single-row sum. -/
def new_tuple (row : List Ty) : Ty :=
  match row.length with
  | 0 => UNIT
  | _ => new_sum [row]

/-- Initialize a new custom type, `Type::new_extension`: the cached
bound is the `CustomType`'s own bound. -/
def new_extension (c : CustomType) : Ty :=
  .mk (.ext c) c.bound

/-- Initialize a new alias, `Type::new_alias`. -/
def new_alias (a : AliasDecl) : Ty :=
  new (.alias a)

/-- New UnitSum with empty tuple variants, `Type::new_unit_sum`
("should be the only way to avoid going through SumType::new"). -/
def new_unit_sum (size : Nat) : Ty :=
  .mk (.sum (SumType.new_unary size)) .eq

/-- New use of the type variable with the given index; `bound` must be
exactly that with which the variable was declared. `Type::new_var_use`. -/
def new_var_use (idx : Nat) (bound : TypeBound) : Ty :=
  .mk (.var idx bound) bound

/-- New use of the row variable with the given index,
`Type::new_row_var_use`. -/
def new_row_var_use (idx : Nat) (bound : TypeBound) : Ty :=
  .mk (.rowVar idx bound) bound

end Ty

/-- An error arising when checking a type argument against a kind.
Mirrors `TypeArgError` (missing `type_param` module; the two variants
used are pinned by the tests in src/src/types/poly_func.rs). -/
inductive TypeArgError where
  /-- Wrong number of type arguments (actual, expected). -/
  | WrongNumberArgs (actual expected : Nat)
  /-- Type of a type argument does not match the type parameter. -/
  | TypeMismatch (param : TypeParam) (arg : TypeArg)

/-- An error that can occur in computing the signature of a node.
Mirrors `SignatureError` (src/src/extension.rs), plus the
`RowVarWhereTypeExpected` variant of the hugr-core snapshot. -/
inductive SignatureError where
  /-- Definition name and instantiation name do not match. -/
  | NameMismatch (definition instantiation : String)
  /-- Definition extension and instantiation extension do not match. -/
  | ExtensionMismatch (definition instantiation : ExtensionId)
  /-- Type arguments of the node did not match the declared params. -/
  | TypeArgMismatch (e : TypeArgError)
  /-- The registry did not contain the referenced extension. -/
  | ExtensionNotFound (x : ExtensionId)
  /-- The extension did not contain the expected `TypeDef`. -/
  | ExtensionTypeNotFound (exn : ExtensionId) (typ : String)
  /-- The bound recorded for a `CustomType` does not match what the
  `TypeDef` computes (actual = cached, expected = computed). -/
  | WrongBound (actual expected : TypeBound)
  /-- A type variable is used as a kind that does not match the
  declaration. -/
  | TypeVarDoesNotMatchDeclaration (cached actual : TypeParam)
  /-- A type variable that was used has not been declared. -/
  | FreeTypeVar (idx num_decls : Nat)
  /-- A row variable was used where a single type is expected. -/
  | RowVarWhereTypeExpected (idx : Nat)

/-- Verify that the `idx`th declaration in scope exists and equals the
cached declaration at the use site.
Mirrors `check_typevar_decl` (hugr-core/src/types.rs). -/
def check_typevar_decl (decls : List TypeParam) (idx : Nat)
    (cached_decl : TypeParam) : Except SignatureError Unit :=
  match decls.get? idx with
  | none => .error (.FreeTypeVar idx decls.length)
  | some actual =>
      if actual = cached_decl then .ok ()
      else .error (.TypeVarDoesNotMatchDeclaration cached_decl actual)

mutual
/-- Check a type argument against a kind.
Modelled from the spec: "`check_type_arg(arg, param)` matches argument
shape to parameter kind and, for `Type`-kind parameters, enforces bound
covariance". A variable-use argument fits any kind containing its
cached declaration; a row-variable type fits a list-of-types kind
(this is what lets `PolyFuncType::instantiate`'s renumbered remaining
parameters fit their own declarations). -/
def check_type_arg (arg : TypeArg) (param : TypeParam) : Except TypeArgError Unit :=
  match arg, param with
  | .var _ decl, p =>
      if p.contains decl then .ok () else .error (.TypeMismatch param arg)
  | .type (.mk (.rowVar _ vb) _), .list (.type b) =>
      if b.contains vb then .ok () else .error (.TypeMismatch param arg)
  | .type ty, .type b =>
      if ¬ ty.is_row_var ∧ b.contains ty.least_upper_bound then .ok ()
      else .error (.TypeMismatch param arg)
  | .sequence elems, .list p => check_seq_elems elems p
  | .boundedNat n, .boundedNat bound =>
      if bound.valid_value n then .ok () else .error (.TypeMismatch param arg)
  | .exts _, .extensions => .ok ()
  | a, p => .error (.TypeMismatch p a)

/-- Check the elements of a sequence argument against a list kind; row
variable elements of fitting bound are also allowed. -/
def check_seq_elems (elems : List TypeArg) (p : TypeParam) : Except TypeArgError Unit :=
  match elems with
  | [] => .ok ()
  | e :: rest =>
      match e, p with
      | .type (.mk (.rowVar ridx vb) eb), .type b =>
          if b.contains vb then check_seq_elems rest p
          else .error (.TypeMismatch p (.type (.mk (.rowVar ridx vb) eb)))
      | e, p =>
          match check_type_arg e p with
          | .error er => .error er
          | .ok _ => check_seq_elems rest p
end

/-- Check a list of type arguments against the declared kinds: arity
first, then pointwise, failing fast.
Modelled from the spec: "`check_type_args` checks arity then checks
pointwise, failing fast with a wrong-arity or first-mismatch error". -/
def check_type_args (args : List TypeArg) (params : List TypeParam) :
    Except TypeArgError Unit :=
  if args.length ≠ params.length then
    .error (.WrongNumberArgs args.length params.length)
  else go args params
where
  /-- Pointwise pass. -/
  go : List TypeArg → List TypeParam → Except TypeArgError Unit
  | [], _ => .ok ()
  | _, [] => .ok ()
  | a :: args, p :: params =>
      match check_type_arg a p with
      | .error e => .error e
      | .ok _ => go args params

/-- A new use of a declared variable as a `TypeArg`.
Modelled from the spec / `TypeArg::new_var_use`: variables of type kind
and of row (list-of-types) kind are represented as `TypeArg.type` of a
variable / row-variable type, extension-set variables as an encoded
`exts` member, and every other kind as `TypeArg.var`. -/
def TypeArg.new_var_use (idx : Nat) (decl : TypeParam) : TypeArg :=
  match decl with
  | .type b => .type (Ty.new_var_use idx b)
  | .list (.type b) => .type (Ty.new_row_var_use idx b)
  | .extensions => .exts (ExtensionSet.type_var idx)
  | d => .var idx d

/-- The bound-computation policy of a `TypeDef`.
Modelled from the spec: "a bound-computation policy (an explicit fixed
bound, or derived from a specified subset of its parameters)"
(`TypeDefBound` in the missing `type_def` module). -/
inductive TypeDefBound where
  /-- A fixed bound, `TypeDefBound::Explicit`. -/
  | explicit (b : TypeBound)
  /-- Derived as the least upper bound of the type arguments at the given
  parameter positions, `TypeDefBound::FromParams`. -/
  | from_params (indices : List Nat)

/-- A type definition inside an extension: name, declared parameter
kinds, and a bound-computation policy.
Modelled from the spec: "`TypeDef`: name, declared `TypeParam` kinds,
and a bound-computation policy". The parent extension id is carried as
in the Rust `TypeParametrised` trait. -/
structure TypeDef where
  extension : ExtensionId
  name : String
  params : List TypeParam
  bound : TypeDefBound

/-- Compute the bound of an instantiation of this `TypeDef` at the given
arguments. `none` models the panic hit when a `from_params` index does
not denote a type argument. -/
def TypeDef.compute_bound (d : TypeDef) (args : List TypeArg) : Option TypeBound :=
  match d.bound with
  | .explicit b => some b
  | .from_params indices =>
      (indices.mapM fun i =>
        match args.get? i with
        | some (.type ty) => some ty.least_upper_bound
        | _ => none).map least_upper_bound

/-- A polymorphic function type: an ordered list of declared parameters
plus a body whose variables are De Bruijn indices into them.
Mirrors `PolyFuncType` (src/src/types/poly_func.rs). -/
structure PolyFuncType where
  params : List TypeParam
  body : FunctionType

/-- An operation definition: a name plus its polymorphic type scheme.
Modelled from the spec: "`OpDef`: name, declared parameter kinds, and a
signature rule that is either a fixed `PolyFuncType` or a pure function
of the supplied `TypeArg`s"; we model the fixed-scheme rule, whose
declared parameter kinds are the scheme's. -/
structure OpDef where
  name : String
  signature : PolyFuncType

/-- A named bundle of type and operation definitions.
Mirrors `Extension` (src/src/extension.rs), restricted to the parts the
claims touch; the `HashMap`s keyed by name become association lists. -/
structure Extension where
  name : ExtensionId
  types : List (String × TypeDef)
  operations : List (String × OpDef)

/-- Read-only access to the types in this extension,
`Extension::get_type`. -/
def Extension.get_type (e : Extension) (type_name : String) : Option TypeDef :=
  (e.types.find? fun p => p.1 = type_name).map Prod.snd

/-- Read-only access to the operations in this extension,
`Extension::get_op`. -/
def Extension.get_op (e : Extension) (op_name : String) : Option OpDef :=
  (e.operations.find? fun p => p.1 = op_name).map Prod.snd

/-- Extension registries store extensions to be looked up during
validation; `ExtensionRegistry` (a `BTreeMap` keyed by the extension
name, modelled as a list looked up by name). -/
abbrev ExtensionRegistry := List Extension

/-- Gets the extension with the given name, `ExtensionRegistry::get`. -/
def ExtensionRegistry.get (r : ExtensionRegistry) (name : ExtensionId) : Option Extension :=
  r.find? fun e => e.name = name

/-- An extension registry containing no extensions, `EMPTY_REG`. -/
def EMPTY_REG : ExtensionRegistry := []

/-- A replacement of type variables with a finite list of known values
(plus the registry needed to interpret extension arguments).
Mirrors `Substitution<'a>(&'a [TypeArg], &'a ExtensionRegistry)`
(hugr-core/src/types.rs). -/
structure Substitution where
  args : List TypeArg
  reg : ExtensionRegistry

/-- Fetch the replacement for a variable of any kind,
`Substitution::apply_var`; `none` models the `expect` panic on an
undeclared variable. -/
def Substitution.apply_var (s : Substitution) (idx : Nat) (_decl : TypeParam) :
    Option TypeArg :=
  s.args.get? idx

/-- Collect the element types of a sequence argument; a non-type element
is the "Not a list of types" panic (`none`). -/
def map_types : List TypeArg → Option (List Ty)
  | [] => some []
  | .type ty :: rest =>
      match map_types rest with
      | none => none
      | some ts => some (ty :: ts)
  | _ :: _ => none

/-- Fetch the replacement row for a row variable,
`Substitution::apply_rowvar`: a list-kind argument is flattened into its
element types; a lone row-variable type argument stands for itself;
anything else is the "Not a type or list of types" panic (`none`). -/
def Substitution.apply_rowvar (s : Substitution) (idx : Nat) (_bound : TypeBound) :
    Option (List Ty) :=
  match s.args.get? idx with
  | none => none
  | some (.sequence elems) => map_types elems
  | some (.type ty) => if ty.is_row_var then some [ty] else none
  | some _ => none

/-- Substitution on an extension set: concrete members are kept,
variable members are replaced by the members of their extension-set
argument. Mirrors `ExtensionSet::substitute` (src/src/extension.rs);
`none` models the "value for type var was not extension set" panic. -/
def exts_substitute (es : ExtensionSet) (s : Substitution) : Option ExtensionSet :=
  match es with
  | [] => some []
  | e :: rest =>
      match
        (match as_typevar e with
         | none => some [e]
         | some i =>
             match s.apply_var i .extensions with
             | some (.exts es2) => some es2
             | _ => none)
      with
      | none => none
      | some here =>
          match exts_substitute rest s with
          | none => none
          | some there => some (here ++ there)

mutual
/-- Applies a substitution to a type, `Type::substitute`
(hugr-core/src/types.rs). This may result in a row of types when the
type is really a row variable. `none` models the
"Variable was not a type" panic on kind-mismatched replacements. -/
def Ty.substitute (t : Ty) (s : Substitution) : Option (List Ty) :=
  match t with
  | .mk (.rowVar idx bound) _ => s.apply_rowvar idx bound
  | .mk (.alias a) b => some [.mk (.alias a) b]
  | .mk (.sum (.unit n)) b => some [.mk (.sum (.unit n)) b]
  | .mk (.var idx bound) _ =>
      match s.apply_var idx (.type bound) with
      | some (.type ty) => some [ty]
      | _ => none
  | .mk (.ext c) _ =>
      match c.substitute s with
      | none => none
      | some c2 => some [Ty.new_extension c2]
  | .mk (.function f) _ =>
      match f.substitute s with
      | none => none
      | some f2 => some [Ty.new_function f2]
  | .mk (.sum (.general rows)) _ =>
      match substitute_rows rows s with
      | none => none
      | some rs => some [Ty.new_sum rs]

/-- Substitution on a type row: each type is substituted and the
resulting rows are concatenated (row variables expanding in place).
Modelled from the spec: a row variable is replaced by "the flattening of
its list-kind argument into zero or more `Type`s" (`TypeRow::substitute`
in the missing `type_row` module). -/
def substitute_row (row : List Ty) (s : Substitution) : Option (List Ty) :=
  match row with
  | [] => some []
  | t :: rest =>
      match t.substitute s with
      | none => none
      | some ts =>
          match substitute_row rest s with
          | none => none
          | some rs => some (ts ++ rs)

/-- Substitution on the variant rows of a general sum. -/
def substitute_rows (rows : List (List Ty)) (s : Substitution) :
    Option (List (List Ty)) :=
  match rows with
  | [] => some []
  | r :: rest =>
      match substitute_row r s with
      | none => none
      | some r2 =>
          match substitute_rows rest s with
          | none => none
          | some rs => some (r2 :: rs)

/-- Substitution on a custom type: the arguments are substituted, the
definition reference and cached bound are kept unchanged
("the bound could get narrower as a result of substitution" is a
documented TODO in the source). Mirrors `CustomType::substitute`
(src/src/types/custom.rs). -/
def CustomType.substitute (c : CustomType) (s : Substitution) : Option CustomType :=
  match c with
  | .mk e i args b =>
      match substitute_args args s with
      | none => none
      | some a2 => some (.mk e i a2 b)

/-- Substitution on a list of type arguments, pointwise. -/
def substitute_args (args : List TypeArg) (s : Substitution) : Option (List TypeArg) :=
  match args with
  | [] => some []
  | a :: rest =>
      match a.substitute s with
      | none => none
      | some a2 =>
          match substitute_args rest s with
          | none => none
          | some rest2 => some (a2 :: rest2)

/-- Substitution on the elements of an all-types sequence: an element
whose substitution is a single type stays in place, an element that
expanded to a row of types (a row variable) is spliced in; anything
else is the "Expected Type or row of Types" panic (`none`). -/
def substitute_seq_types (elems : List TypeArg) (s : Substitution) :
    Option (List TypeArg) :=
  match elems with
  | [] => some []
  | e :: rest =>
      match e.substitute s with
      | none => none
      | some e2 =>
          match substitute_seq_types rest s with
          | none => none
          | some rest2 =>
              match e2 with
              | .type t => some (.type t :: rest2)
              | .sequence es => some (es ++ rest2)
              | _ => none

/-- Substitution on a type argument.
Modelled from the spec: "all other variants recurse structurally"; a
type argument that is really a row variable may expand into a sequence,
and sequences of types flatten row-variable elements in place
(`TypeArg::substitute` in the missing `type_param` module). -/
def TypeArg.substitute (a : TypeArg) (s : Substitution) : Option TypeArg :=
  match a with
  | .type ty =>
      match ty.substitute s with
      | none => none
      | some [t1] => some (.type t1)
      | some ts => some (.sequence (ts.map .type))
  | .boundedNat n => some (.boundedNat n)
  | .sequence elems =>
      if elems.all fun e => match e with | .type _ => true | _ => false then
        match substitute_seq_types elems s with
        | none => none
        | some es => some (.sequence es)
      else
        match substitute_args elems s with
        | none => none
        | some es => some (.sequence es)
  | .exts es =>
      match exts_substitute es s with
      | none => none
      | some es2 => some (.exts es2)
  | .var idx decl => s.apply_var idx decl

/-- Substitution on a function type: both rows and the extension
requirements are substituted. Mirrors `FunctionType::substitute`
(src/hugr/src/types/signature.rs). -/
def FunctionType.substitute (f : FunctionType) (s : Substitution) : Option FunctionType :=
  match f with
  | .mk inp out reqs =>
      match substitute_row inp s with
      | none => none
      | some i2 =>
          match substitute_row out s with
          | none => none
          | some o2 =>
              match exts_substitute reqs s with
              | none => none
              | some r2 => some (.mk i2 o2 r2)
end

/-- Outcome of a validation step: `none` is a panic, `some` the Rust
`Result`. -/
abbrev VResult := Option (Except SignatureError Unit)

/-- Successful validation. -/
def vok : VResult := some (.ok ())

/-- Sequencing of validation steps: panics and errors propagate, the
continuation runs only after success (Rust's `?`). -/
def vbind (x : VResult) (f : Unit → VResult) : VResult :=
  match x with
  | none => none
  | some (.error e) => some (.error e)
  | some (.ok _) => f ()

/-- Validation of an extension set against the declarations in scope:
every variable member must be declared with `Extensions` kind.
Mirrors `ExtensionSet::validate` (src/src/extension.rs). -/
def exts_validate (es : ExtensionSet) (params : List TypeParam) :
    Except SignatureError Unit :=
  match es with
  | [] => .ok ()
  | e :: rest =>
      match as_typevar e with
      | none => exts_validate rest params
      | some idx =>
          match check_typevar_decl params idx .extensions with
          | .error er => .error er
          | .ok _ => exts_validate rest params

/-- Check a custom instance against this definition: extension identity,
name, argument fit (all three mirroring `check_concrete_impl`,
src/src/extension.rs), and then the bound consistency check.
Modelled from the spec: "confirm the cached bound equals the bound the
`TypeDef` computes (fails with a wrong-bound error on mismatch — this is
a consistency check against a cache, not a bound re-derivation)"
(`TypeDef::check_custom` in the missing `type_def` module). -/
def TypeDef.check_custom (d : TypeDef) (c : CustomType) : VResult :=
  if d.extension ≠ c.extension then
    some (.error (.ExtensionMismatch d.extension c.extension))
  else if d.name ≠ c.name then
    some (.error (.NameMismatch d.name c.name))
  else
    match check_type_args c.args d.params with
    | .error e => some (.error (.TypeArgMismatch e))
    | .ok _ =>
        match d.compute_bound c.args with
        | none => none
        | some calculated =>
            if calculated = c.bound then vok
            else some (.error (.WrongBound c.bound calculated))

mutual
/-- Checks all variables used in the type are declared in scope
(rejecting row variables when `allow_row_vars` is false) and that every
nested `CustomType` resolves in the registry and fits its definition.
Mirrors `Type::validate` (hugr-core/src/types.rs); the rows of a sum
and the rows of a nested function type allow row variables. -/
def Ty.validate (t : Ty) (allow_row_vars : Bool) (reg : ExtensionRegistry)
    (var_decls : List TypeParam) : VResult :=
  match t with
  | .mk (.sum (.general rows)) _ => validate_rows rows reg var_decls
  | .mk (.sum (.unit _)) _ => vok
  | .mk (.alias _) _ => vok
  | .mk (.ext c) _ => c.validate reg var_decls
  | .mk (.function f) _ => f.validate_var_len reg var_decls
  | .mk (.var idx bound) _ => some (check_typevar_decl var_decls idx (.type bound))
  | .mk (.rowVar idx bound) _ =>
      if allow_row_vars then
        some (check_typevar_decl var_decls idx (.list (.type bound)))
      else some (.error (.RowVarWhereTypeExpected idx))

/-- Validate every type of a row, with the given row-variable policy.
`validate_row row true` is the source's `TypeRow::validate_var_len`,
`validate_row row false` its `TypeRow::validate`. -/
def validate_row (row : List Ty) (allow_row_vars : Bool) (reg : ExtensionRegistry)
    (var_decls : List TypeParam) : VResult :=
  match row with
  | [] => vok
  | t :: rest =>
      vbind (t.validate allow_row_vars reg var_decls) fun _ =>
        validate_row rest allow_row_vars reg var_decls

/-- Validate the variant rows of a general sum (row variables allowed). -/
def validate_rows (rows : List (List Ty)) (reg : ExtensionRegistry)
    (var_decls : List TypeParam) : VResult :=
  match rows with
  | [] => vok
  | r :: rest =>
      vbind (validate_row r true reg var_decls) fun _ =>
        validate_rows rest reg var_decls

/-- Validate a custom type: first the arguments individually, then
resolve the owning extension (extension-not-found) and type definition
(type-not-found) in the registry, then check the instance against the
definition. Mirrors `CustomType::validate` (src/src/types/custom.rs). -/
def CustomType.validate (c : CustomType) (reg : ExtensionRegistry)
    (type_vars : List TypeParam) : VResult :=
  match c with
  | .mk e i args b =>
      vbind (validate_args args reg type_vars) fun _ =>
        match reg.get e with
        | none => some (.error (.ExtensionNotFound e))
        | some ex =>
            match ex.get_type i with
            | none => some (.error (.ExtensionTypeNotFound e i))
            | some d => d.check_custom (.mk e i args b)

/-- Validate a list of type arguments, pointwise. -/
def validate_args (args : List TypeArg) (reg : ExtensionRegistry)
    (var_decls : List TypeParam) : VResult :=
  match args with
  | [] => vok
  | a :: rest =>
      vbind (a.validate reg var_decls) fun _ => validate_args rest reg var_decls

/-- Validate a type argument.
Modelled from the spec: type arguments recurse structurally (types
inside arguments may be row variables, so are validated with row
variables allowed), variable-use arguments check their cached kind
against the declaration (`TypeArg::validate` in the missing
`type_param` module). -/
def TypeArg.validate (a : TypeArg) (reg : ExtensionRegistry)
    (var_decls : List TypeParam) : VResult :=
  match a with
  | .type ty => ty.validate true reg var_decls
  | .boundedNat _ => vok
  | .sequence elems => validate_args elems reg var_decls
  | .exts es => some (exts_validate es var_decls)
  | .var idx decl => some (check_typevar_decl var_decls idx decl)

/-- Validate a function type whose rows may contain row variables,
`FunctionType::validate_var_len` (input row, output row, then the
extension requirements). -/
def FunctionType.validate_var_len (f : FunctionType) (reg : ExtensionRegistry)
    (var_decls : List TypeParam) : VResult :=
  match f with
  | .mk inp out reqs =>
      vbind (validate_row inp true reg var_decls) fun _ =>
        vbind (validate_row out true reg var_decls) fun _ =>
          some (exts_validate reqs var_decls)

/-- Validate a function type rejecting row variables in its rows,
`FunctionType::validate`. -/
def FunctionType.validate (f : FunctionType) (reg : ExtensionRegistry)
    (var_decls : List TypeParam) : VResult :=
  match f with
  | .mk inp out reqs =>
      vbind (validate_row inp false reg var_decls) fun _ =>
        vbind (validate_row out false reg var_decls) fun _ =>
          some (exts_validate reqs var_decls)
end

namespace PolyFuncType

/-- Validate the body against the scheme's own parameters (at the lowest
De Bruijn indices) followed by the enclosing scope's.
Mirrors `PolyFuncType::validate` (src/src/types/poly_func.rs). -/
def validate (p : PolyFuncType) (reg : ExtensionRegistry)
    (external_var_decls : List TypeParam) : VResult :=
  p.body.validate_var_len reg (p.params ++ external_var_decls)

/-- Instantiate every parameter of the scheme: check the arguments
against the parameters (ensuring applicability and totality) and then
substitute them through the body.
Mirrors `PolyFuncType::instantiate_all` (src/src/types/poly_func.rs). -/
def instantiate_all (p : PolyFuncType) (args : List TypeArg)
    (ext_reg : ExtensionRegistry) : Option (Except SignatureError FunctionType) :=
  match check_type_args args p.params with
  | .error e => some (.error (.TypeArgMismatch e))
  | .ok _ =>
      match p.body.substitute ⟨args, ext_reg⟩ with
      | none => none
      | some ft => some (.ok ft)

/-- The argument list used by partial application: the supplied
arguments followed by a fresh, renumbered use of each remaining
parameter (this is the list built inside `PolyFuncType::instantiate`). -/
def extended_args (p : PolyFuncType) (args : List TypeArg) : List TypeArg :=
  args ++ ((p.params.drop args.length).enum.map fun pr => TypeArg.new_var_use pr.1 pr.2)

/-- Instantiate the scheme with the given (possibly partial) argument
list: the remaining parameters stay bound, renumbered downward from
index 0. Mirrors `PolyFuncType::instantiate`
(src/src/types/poly_func.rs). -/
def instantiate (p : PolyFuncType) (args : List TypeArg)
    (exts : ExtensionRegistry) : Option (Except SignatureError PolyFuncType) :=
  match p.instantiate_all
      (if (p.params.drop args.length).isEmpty then args else p.extended_args args)
      exts with
  | none => none
  | some (.error e) => some (.error e)
  | some (.ok ft) => some (.ok ⟨p.params.drop args.length, ft⟩)

/-- The `PartialEq<FunctionType>` impl for `PolyFuncType`: equal to a
monomorphic function type when there are no parameters and the bodies
agree. -/
def eq_fn (p : PolyFuncType) (f : FunctionType) : Prop :=
  p.params = [] ∧ p.body = f

end PolyFuncType

/-- The variable indices referenced by an extension set (the encoded
members). -/
def exts_var_list (es : ExtensionSet) : List Nat :=
  es.filterMap as_typevar

mutual
/-- Every variable index (scalar, row, or extension-set variable)
occurring anywhere in a type. Used to state that instantiation leaves
no reference to the instantiated scope. -/
def Ty.var_list : Ty → List Nat
  | .mk (.var idx _) _ => [idx]
  | .mk (.rowVar idx _) _ => [idx]
  | .mk (.alias _) _ => []
  | .mk (.sum (.unit _)) _ => []
  | .mk (.sum (.general rows)) _ => rows_var_list rows
  | .mk (.ext c) _ => c.var_list
  | .mk (.function f) _ => f.var_list

/-- Variable indices of a row. -/
def row_var_list : List Ty → List Nat
  | [] => []
  | t :: rest => t.var_list ++ row_var_list rest

/-- Variable indices of a list of rows. -/
def rows_var_list : List (List Ty) → List Nat
  | [] => []
  | r :: rest => row_var_list r ++ rows_var_list rest

/-- Variable indices of a custom type (those of its arguments). -/
def CustomType.var_list : CustomType → List Nat
  | .mk _ _ args _ => args_var_list args

/-- Variable indices of a list of type arguments. -/
def args_var_list : List TypeArg → List Nat
  | [] => []
  | a :: rest => a.var_list ++ args_var_list rest

/-- Variable indices of a type argument. -/
def TypeArg.var_list : TypeArg → List Nat
  | .type ty => ty.var_list
  | .boundedNat _ => []
  | .sequence elems => args_var_list elems
  | .exts es => exts_var_list es
  | .var idx _ => [idx]

/-- Variable indices of a function type (rows and requirements). -/
def FunctionType.var_list : FunctionType → List Nat
  | .mk inp out reqs => row_var_list inp ++ row_var_list out ++ exts_var_list reqs
end

/-- Whether a declaration kind may be carried by a `TypeArg.var` node:
type-kind, row-kind and extensions-kind variables are represented
through the other constructors (see `TypeArg.new_var_use`), so the Rust
`TypeArg::Variable` — whose fields are private — never carries these. -/
def var_encodable : TypeParam → Bool
  | .type _ => false
  | .list (.type _) => false
  | .extensions => false
  | _ => true

/-- The representation invariant of Rust `TypeArg` values: no
`TypeArg.var` node (top-level or as a sequence element) carries a
declaration of a kind that `TypeArg::new_var_use` encodes differently.
Every argument built through the public constructors satisfies this. -/
def TypeArg.well_formed_uses : TypeArg → Bool
  | .var _ decl => var_encodable decl
  | .sequence elems =>
      elems.all fun e =>
        match e with
        | .var _ decl => var_encodable decl
        | _ => true
  | _ => true

mutual
/-- Canonicality of a type value: the invariants maintained by the Rust
`Type` constructors (whose fields are private): the cached bound is the
one recomputed from the variant, and no sum is stored in `General` form
when `SumType::new` would compact it to `Unit`. -/
def Ty.canonical : Ty → Bool
  | .mk e b => TypeEnum.canonical e && (b = e.least_upper_bound)

/-- Canonicality of a variant (see `Ty.canonical`). -/
def TypeEnum.canonical : TypeEnum → Bool
  | .ext c => c.canonical
  | .alias _ => true
  | .function f => f.canonical
  | .var _ _ => true
  | .rowVar _ _ => true
  | .sum (.unit _) => true
  | .sum (.general rows) =>
      if rows.length ≤ 255 ∧ rows.all List.isEmpty then false
      else rows_canonical rows

/-- Canonicality of a row. -/
def row_canonical : List Ty → Bool
  | [] => true
  | t :: rest => t.canonical && row_canonical rest

/-- Canonicality of a list of rows. -/
def rows_canonical : List (List Ty) → Bool
  | [] => true
  | r :: rest => row_canonical r && rows_canonical rest

/-- Canonicality of a custom type (its arguments). -/
def CustomType.canonical : CustomType → Bool
  | .mk _ _ args _ => args_canonical args

/-- Canonicality of a list of type arguments. -/
def args_canonical : List TypeArg → Bool
  | [] => true
  | a :: rest => a.canonical && args_canonical rest

/-- Canonicality of a type argument. -/
def TypeArg.canonical : TypeArg → Bool
  | .type ty => ty.canonical
  | .boundedNat _ => true
  | .sequence elems => args_canonical elems
  | .exts _ => true
  | .var _ _ => true

/-- Canonicality of a function type. -/
def FunctionType.canonical : FunctionType → Bool
  | .mk inp out _ => row_canonical inp && row_canonical out
end

/-- A concrete instantiation of an operation defined in an extension.
Modelled from the spec: the construction layer obtains "a concrete
`FunctionType` before wiring ports"; we record the definition name, the
supplied arguments and the computed signature (`ExtensionOp` in the
missing `ops::custom` module). -/
structure ExtensionOp where
  def_name : String
  args : List TypeArg
  signature : FunctionType

/-- Build an `ExtensionOp` from a definition and arguments: check the
arguments against the declared parameters, invoke the signature rule
and record the resulting concrete signature.
Modelled from the spec: "look up the `OpDef`, check `args` against its
declared parameters, invoke its signature rule, and return the concrete
`FunctionType` or a signature error" (`ExtensionOp::new` in the missing
`ops::custom` module). -/
def ExtensionOp.new (d : OpDef) (args : List TypeArg)
    (ext_reg : ExtensionRegistry) : Option (Except SignatureError ExtensionOp) :=
  match d.signature.instantiate_all args ext_reg with
  | none => none
  | some (.error e) => some (.error e)
  | some (.ok ft) => some (.ok ⟨d.name, args, ft⟩)

/-- Instantiate an operation which references an `OpDef` in this
extension. Mirrors `Extension::instantiate_extension_op`
(src/src/extension.rs): the definition is looked up with
`.expect("Op not found.")`, so a missing operation name is a panic
(`none`), not an error return. -/
def Extension.instantiate_extension_op (e : Extension) (op_name : String)
    (args : List TypeArg) (ext_reg : ExtensionRegistry) :
    Option (Except SignatureError ExtensionOp) :=
  match e.get_op op_name with
  | none => none
  | some d => ExtensionOp.new d args ext_reg

/-- Structural validation errors (the two root-discipline variants the
claims touch; mirrors `ValidationError` of the validator module). -/
inductive ValidationError where
  /-- The node has no parent but is not the declared root. -/
  | NoParent (node : Nat)
  /-- The declared root is not a hierarchy root. -/
  | RootNotRoot (node : Nat)
deriving DecidableEq

/-- The hierarchical graph, reduced to what the root-discipline check
observes: nodes are indices `0 ..` with an optional hierarchy parent,
plus the designated root. Mirrors the `Hugr` struct (src/src/hugr.rs:
a `PortGraph`, a `Hierarchy`, and `root: NodeIndex`). -/
structure Hugr where
  parents : List (Option Nat)
  root : Nat

namespace Hugr

/-- A new Hugr with a single (parentless) root node, `Hugr::new` /
`Hugr::default`. -/
def new : Hugr := ⟨[none], 0⟩

/-- Add a node to the graph (initially with no parent); returns the
graph and the new node's index. Mirrors `Hugr::add_node`. -/
def add_node (h : Hugr) : Hugr × Nat :=
  (⟨h.parents ++ [none], h.root⟩, h.parents.length)

/-- Sets the parent of a node, `Hugr::set_parent`. -/
def set_parent (h : Hugr) (node parent : Nat) : Hugr :=
  ⟨h.parents.set node (some parent), h.root⟩

/-- Find the first node, scanning upward from index `i`, that has no
parent yet is not the designated root. -/
def first_rootless (root : Nat) : Nat → List (Option Nat) → Except ValidationError Unit
  | _, [] => .ok ()
  | i, p :: rest =>
      if p = none ∧ i ≠ root then .error (.NoParent i)
      else first_rootless root (i + 1) rest

/-- Check the root discipline of the hierarchy.
Modelled from the spec: "exactly one node has no parent, and it must be
the graph's designated root (else a rootless-node or root-mismatch
error)" — the designated root must itself be parentless
(`RootNotRoot`), and every other node must have a parent (`NoParent`,
naming the offending node). (`Hugr::validate`'s root check: the
implementation in src/src/hugr.rs is a stub and the behaviour is pinned
by the spec and by the `invalid_root` test in
src/src/hugr/validate/test.rs.) -/
def validate (h : Hugr) : Except ValidationError Unit :=
  match h.parents.get? h.root with
  | some (some _) => .error (.RootNotRoot h.root)
  | _ => first_rootless h.root 0 h.parents

end Hugr

/-- A type carrying the `FunctionType<false>` element guarantee: not a
row variable. Used by the model of the `ROWVARS`-indexed signatures of
src/hugr/src/types/signature.rs. -/
def TyNoRV := { t : Ty // t.is_row_var = false }

/-- Model of `FunctionType<false>`: rows of row-variable-free types. -/
structure FunctionTypeNRV where
  input : List TyNoRV
  output : List TyNoRV
  extension_reqs : ExtensionSet

/-- The `TypeRow<false> → TypeRow<true>` conversion: element-wise
injection of the row-variable-free types. -/
def row_into_rv (r : List TyNoRV) : List Ty :=
  r.map Subtype.val

/-- The `From<FunctionType<false>> for FunctionType<true>` conversion
(src/hugr/src/types/signature.rs): both rows of the result are built
from `value.input` — the source's `output` field is not read — while
`extension_reqs` is carried over. -/
def FunctionTypeNRV.into_rv (f : FunctionTypeNRV) : FunctionType :=
  ⟨row_into_rv f.input, row_into_rv f.input, f.extension_reqs⟩

/-- The digested content of a successful `check_type_args`: every
declared parameter position has an argument that fits it. -/
def args_fit (args : List TypeArg) (decls : List TypeParam) : Prop :=
  ∀ i p, decls.get? i = some p →
    ∃ a, args.get? i = some a ∧ check_type_arg a p = .ok ()

/-! ## Supporting lemmas -/

theorem vbind_vok (f : Unit → VResult) : vbind vok f = f () := rfl

theorem vbind_eq_vok {x : VResult} {f : Unit → VResult} (h : vbind x f = vok) :
    x = vok ∧ f () = vok := by
  match x with
  | none => simp [vbind, vok] at h
  | some (.error e) => simp [vbind, vok] at h
  | some (.ok u) => exact ⟨rfl, h⟩

theorem check_typevar_decl_ok {decls : List TypeParam} {idx : Nat} {d : TypeParam}
    (h : check_typevar_decl decls idx d = .ok ()) : decls.get? idx = some d := by
  unfold check_typevar_decl at h
  match hg : decls.get? idx with
  | none => rw [hg] at h; exact absurd h (by simp)
  | some actual =>
      rw [hg] at h
      by_cases he : actual = d
      · exact congrArg some he
      · simp [he] at h

theorem tb_contains_refl (b : TypeBound) : b.contains b = true := by
  cases b <;> rfl

theorem ub_contains_refl (u : UpperBound) : u.contains u = true := by
  match u with
  | none => rfl
  | some n => simp [UpperBound.contains]

theorem tp_contains_refl (p : TypeParam) : p.contains p = true := by
  induction p with
  | type b => exact tb_contains_refl b
  | boundedNat u => exact ub_contains_refl u
  | list p ih => simpa [TypeParam.contains] using ih
  | extensions => rfl

/-- A renumbered use of a parameter fits that parameter's own kind (this
is what makes `PolyFuncType::instantiate`'s extended argument list pass
`check_type_args`). -/
theorem check_new_var_use (j : Nat) (d : TypeParam) :
    check_type_arg (TypeArg.new_var_use j d) d = .ok () := by
  match d with
  | .type b =>
      simp [TypeArg.new_var_use, Ty.new_var_use, check_type_arg, Ty.is_row_var,
        Ty.least_upper_bound, tb_contains_refl]
  | .boundedNat u =>
      simp [TypeArg.new_var_use, check_type_arg, TypeParam.contains, ub_contains_refl]
  | .extensions => rfl
  | .list (.type b) =>
      simp [TypeArg.new_var_use, Ty.new_row_var_use, check_type_arg, tb_contains_refl]
  | .list (.boundedNat u) =>
      simp [TypeArg.new_var_use, check_type_arg, TypeParam.contains, ub_contains_refl]
  | .list (.list q) =>
      simp [TypeArg.new_var_use, check_type_arg, TypeParam.contains, tp_contains_refl]
  | .list .extensions =>
      simp [TypeArg.new_var_use, check_type_arg, TypeParam.contains]

/-- A renumbered parameter use satisfies the `TypeArg` representation
invariant. -/
theorem new_var_use_wf (j : Nat) (d : TypeParam) :
    (TypeArg.new_var_use j d).well_formed_uses = true := by
  match d with
  | .type b => rfl
  | .boundedNat u => rfl
  | .extensions => rfl
  | .list (.type b) => rfl
  | .list (.boundedNat u) => rfl
  | .list (.list q) => rfl
  | .list .extensions => rfl

theorem check_type_args_ok_len {args : List TypeArg} {params : List TypeParam}
    (h : check_type_args args params = .ok ()) : args.length = params.length := by
  unfold check_type_args at h
  by_cases hl : args.length = params.length
  · exact hl
  · simp [hl] at h

theorem check_type_args_go_fit {args : List TypeArg} {params : List TypeParam}
    (h : check_type_args.go args params = .ok ()) :
    ∀ i a p, args.get? i = some a → params.get? i = some p →
      check_type_arg a p = .ok () := by
  induction args generalizing params with
  | nil => intro i a p ha; simp at ha
  | cons a0 rest ih =>
      match params with
      | [] => intro i a p _ hp; simp at hp
      | p0 :: ps =>
          intro i a p ha hp
          unfold check_type_args.go at h
          match hc : check_type_arg a0 p0 with
          | .error e => rw [hc] at h; exact absurd h (by simp)
          | .ok u =>
              rw [hc] at h
              match i with
              | 0 =>
                  simp only [List.get?] at ha hp
                  cases ha; cases hp; cases u; exact hc
              | i + 1 =>
                  simp only [List.get?] at ha hp
                  exact ih h i a p ha hp

theorem check_type_args_fit {args : List TypeArg} {params : List TypeParam}
    (h : check_type_args args params = .ok ()) : args_fit args params := by
  intro i p hp
  have hlen := check_type_args_ok_len h
  unfold check_type_args at h
  simp only [hlen, ne_eq, not_true_eq_false, if_false] at h
  have hi : i < params.length := by
    by_contra hge
    rw [List.get?_eq_none.mpr (Nat.le_of_not_lt hge)] at hp
    exact absurd hp (by simp)
  match ha : args.get? i with
  | some a => exact ⟨a, rfl, check_type_args_go_fit h i a p ha hp⟩
  | none =>
      have := List.get?_eq_none.mp ha
      omega

theorem check_type_args_of_fit {args : List TypeArg} {params : List TypeParam}
    (hlen : args.length = params.length)
    (hfit : ∀ i a p, args.get? i = some a → params.get? i = some p →
      check_type_arg a p = .ok ()) :
    check_type_args args params = .ok () := by
  unfold check_type_args
  simp only [hlen, ne_eq, not_true_eq_false, if_false]
  clear hlen
  induction args generalizing params with
  | nil => unfold check_type_args.go; cases params <;> rfl
  | cons a0 rest ih =>
      match params with
      | [] => unfold check_type_args.go; rfl
      | p0 :: ps =>
          unfold check_type_args.go
          rw [hfit 0 a0 p0 rfl rfl]
          exact ih fun i a p ha hp => hfit (i + 1) a p ha hp

/-- Membership chain: a variable of a member argument is a variable of
the argument list. -/
theorem mem_args_var_list {a : TypeArg} {args : List TypeArg} {v : Nat}
    (ha : a ∈ args) (hv : v ∈ a.var_list) : v ∈ args_var_list args := by
  induction args with
  | nil => cases ha
  | cons a0 rest ih =>
      rw [List.mem_cons] at ha
      unfold args_var_list
      rw [List.mem_append]
      cases ha with
      | inl h => exact Or.inl (h ▸ hv)
      | inr h => exact Or.inr (ih h)

theorem contains_type_inv {b : TypeBound} {decl : TypeParam}
    (h : (TypeParam.type b).contains decl = true) : ∃ b2, decl = .type b2 := by
  match decl with
  | .type b2 => exact ⟨b2, rfl⟩
  | .boundedNat _ => simp [TypeParam.contains] at h
  | .list _ => simp [TypeParam.contains] at h
  | .extensions => simp [TypeParam.contains] at h

theorem contains_list_inv {p : TypeParam} {decl : TypeParam}
    (h : (TypeParam.list p).contains decl = true) : ∃ q, decl = .list q := by
  match decl with
  | .list q => exact ⟨q, rfl⟩
  | .type _ => simp [TypeParam.contains] at h
  | .boundedNat _ => simp [TypeParam.contains] at h
  | .extensions => simp [TypeParam.contains] at h

theorem contains_exts_inv {decl : TypeParam}
    (h : TypeParam.extensions.contains decl = true) : decl = .extensions := by
  match decl with
  | .extensions => rfl
  | .type _ => simp [TypeParam.contains] at h
  | .boundedNat _ => simp [TypeParam.contains] at h
  | .list _ => simp [TypeParam.contains] at h

/-- A well-formed argument fitting a type-kind parameter is a (non-row)
type. -/
theorem fit_type_kind {a : TypeArg} {bound : TypeBound}
    (hwf : a.well_formed_uses = true)
    (h : check_type_arg a (.type bound) = .ok ()) :
    ∃ ty, a = .type ty ∧ ty.is_row_var = false := by
  match a with
  | .type (.mk e tb) =>
      refine ⟨.mk e tb, rfl, ?_⟩
      match e with
      | .rowVar i vb =>
          simp only [check_type_arg] at h
          simp [Ty.is_row_var] at h
      | .ext c => rfl
      | .alias al => rfl
      | .function f => rfl
      | .var i vb => rfl
      | .sum s => rfl
  | .var i decl =>
      simp only [check_type_arg] at h
      by_cases hc : (TypeParam.type bound).contains decl
      · obtain ⟨b2, rfl⟩ := contains_type_inv hc
        simp [TypeArg.well_formed_uses, var_encodable] at hwf
      · simp [hc] at h
  | .boundedNat n => simp [check_type_arg] at h
  | .sequence es => simp [check_type_arg] at h
  | .exts es => simp [check_type_arg] at h

/-- A well-formed argument fitting a list-of-types parameter is either a
lone row variable or a sequence whose elements pass the element check. -/
theorem fit_list_kind {a : TypeArg} {bound : TypeBound}
    (hwf : a.well_formed_uses = true)
    (h : check_type_arg a (.list (.type bound)) = .ok ()) :
    (∃ i vb b2, a = .type (.mk (.rowVar i vb) b2)) ∨
    (∃ elems, a = .sequence elems ∧ check_seq_elems elems (.type bound) = .ok ()) := by
  match a with
  | .type (.mk e tb) =>
      match e with
      | .rowVar i vb => exact Or.inl ⟨i, vb, tb, rfl⟩
      | .ext c => simp [check_type_arg] at h
      | .alias al => simp [check_type_arg] at h
      | .function f => simp [check_type_arg] at h
      | .var i vb => simp [check_type_arg] at h
      | .sum s => simp [check_type_arg] at h
  | .var i decl =>
      simp only [check_type_arg] at h
      by_cases hc : (TypeParam.list (.type bound)).contains decl
      · obtain ⟨q, rfl⟩ := contains_list_inv hc
        match q with
        | .type b2 => simp [TypeArg.well_formed_uses, var_encodable] at hwf
        | .boundedNat _ => simp [TypeParam.contains] at hc
        | .list _ => simp [TypeParam.contains] at hc
        | .extensions => simp [TypeParam.contains] at hc
      · simp [hc] at h
  | .boundedNat n => simp [check_type_arg] at h
  | .sequence es => exact Or.inr ⟨es, rfl, h⟩
  | .exts es => simp [check_type_arg] at h

/-- A well-formed argument fitting the extensions kind is an extension
set. -/
theorem fit_exts_kind {a : TypeArg}
    (hwf : a.well_formed_uses = true)
    (h : check_type_arg a .extensions = .ok ()) :
    ∃ es, a = .exts es := by
  match a with
  | .exts es => exact ⟨es, rfl⟩
  | .type (.mk e tb) =>
      match e with
      | .rowVar i vb => simp [check_type_arg] at h
      | .ext c => simp [check_type_arg] at h
      | .alias al => simp [check_type_arg] at h
      | .function f => simp [check_type_arg] at h
      | .var i vb => simp [check_type_arg] at h
      | .sum s => simp [check_type_arg] at h
  | .var i decl =>
      simp only [check_type_arg] at h
      by_cases hc : TypeParam.extensions.contains decl
      · obtain rfl := contains_exts_inv hc
        simp [TypeArg.well_formed_uses, var_encodable] at hwf
      · simp [hc] at h
  | .boundedNat n => simp [check_type_arg] at h
  | .sequence es => simp [check_type_arg] at h

theorem check_seq_elems_cons {e0 : TypeArg} {rest : List TypeArg} {p : TypeParam}
    (h : check_seq_elems (e0 :: rest) p = .ok ()) :
    check_seq_elems rest p = .ok () := by
  unfold check_seq_elems at h
  split at h <;> (try split at h) <;> first | exact h | exact absurd h (by simp)

/-- Every element of a well-formed sequence passing the list-of-types
element check is a type. -/
theorem seq_elems_are_types {elems : List TypeArg} {bound : TypeBound}
    (hwf : (TypeArg.sequence elems).well_formed_uses = true)
    (hchk : check_seq_elems elems (.type bound) = .ok ()) :
    ∀ e ∈ elems, ∃ ty, e = .type ty := by
  induction elems with
  | nil => intro e he; cases he
  | cons e0 rest ih =>
      have hwf0 : (∀ e ∈ e0 :: rest,
          (match e with
           | .var _ decl => var_encodable decl
           | _ => true) = true) := by
        simpa [TypeArg.well_formed_uses, List.all_eq_true] using hwf
      have hwfrest : (TypeArg.sequence rest).well_formed_uses = true := by
        simp only [TypeArg.well_formed_uses, List.all_eq_true]
        intro e he; exact hwf0 e (List.mem_cons_of_mem _ he)
      intro e he
      rw [List.mem_cons] at he
      cases he with
      | inl heq =>
          subst heq
          match e, hchk with
          | .type ty, _ => exact ⟨ty, rfl⟩
          | .var i decl, hchk => 
              unfold check_seq_elems at hchk
              simp only [check_type_arg] at hchk
              by_cases hc : (TypeParam.type bound).contains decl
              · obtain ⟨b2, rfl⟩ := contains_type_inv hc
                have := hwf0 (.var i (.type b2)) (List.mem_cons_self _ _)
                simp [var_encodable] at this
              · simp [hc] at hchk
          | .boundedNat n, hchk =>
              unfold check_seq_elems at hchk
              simp [check_type_arg] at hchk
          | .sequence es, hchk =>
              unfold check_seq_elems at hchk
              simp [check_type_arg] at hchk
          | .exts es, hchk =>
              unfold check_seq_elems at hchk
              simp [check_type_arg] at hchk
      | inr hmem => exact ih hwfrest (check_seq_elems_cons hchk) e hmem

theorem var_list_new_extension (c : CustomType) :
    (Ty.new_extension c).var_list = c.var_list := by
  simp [Ty.new_extension, Ty.var_list]

theorem var_list_new_function (f : FunctionType) :
    (Ty.new_function f).var_list = f.var_list := by
  simp [Ty.new_function, Ty.new, Ty.var_list]

theorem var_list_new_sum (rs : List (List Ty)) :
    ∀ v ∈ (Ty.new_sum rs).var_list, v ∈ rows_var_list rs := by
  intro v hv
  unfold Ty.new_sum Ty.new SumType.new at hv
  split at hv
  · simp [Ty.var_list] at hv
  · simpa [Ty.var_list] using hv

/-- Expanding a row-variable's sequence argument: when every element is
a type, the flattening succeeds and contributes only the elements' own
variables. -/
theorem rowvar_arg_expand {elems : List TypeArg}
    (htypes : ∀ e ∈ elems, ∃ ty, e = .type ty) :
    ∃ tys, map_types elems = some tys ∧
      ∀ v ∈ row_var_list tys, v ∈ args_var_list elems := by
  induction elems with
  | nil => exact ⟨[], by simp [map_types], by simp [row_var_list]⟩
  | cons e rest ih =>
      obtain ⟨ty, rfl⟩ := htypes e (List.mem_cons_self _ _)
      obtain ⟨tys, h1, h2⟩ := ih fun x hx => htypes x (List.mem_cons_of_mem _ hx)
      refine ⟨ty :: tys, ?_, ?_⟩
      · simp [map_types, h1]
      · intro v hv
        simp only [row_var_list] at hv
        rw [List.mem_append] at hv
        simp only [args_var_list, TypeArg.var_list, List.mem_append]
        cases hv with
        | inl h => exact Or.inl h
        | inr h => exact Or.inr (h2 v h)

/-- Substituting through an extension set under a fitting, well-formed
argument list succeeds, and every variable of the result is a variable
of the arguments. -/
theorem subst_ok_exts {es : ExtensionSet} {s : Substitution} {decls : List TypeParam}
    (hfit : args_fit s.args decls)
    (hwf : ∀ a ∈ s.args, a.well_formed_uses = true)
    (hval : exts_validate es decls = .ok ()) :
    ∃ es2, exts_substitute es s = some es2 ∧
      ∀ v ∈ exts_var_list es2, v ∈ args_var_list s.args := by
  induction es with
  | nil => exact ⟨[], by simp [exts_substitute], by simp [exts_var_list]⟩
  | cons e rest ih =>
      unfold exts_validate at hval
      split at hval
      · next hv =>
          obtain ⟨es2, hsub, hvars⟩ := ih hval
          refine ⟨e :: es2, ?_, ?_⟩
          · unfold exts_substitute
            rw [hv, hsub]
            rfl
          · intro v hvv
            simp only [exts_var_list, List.filterMap_cons, hv] at hvv
            exact hvars v hvv
      · next i hv =>
          split at hval
          · exact absurd hval (by simp)
          · next u hd =>
              cases u
              have hdecl := check_typevar_decl_ok hd
              obtain ⟨a, ha, hchk⟩ := hfit i .extensions hdecl
              have hmem : a ∈ s.args := List.get?_mem ha
              obtain ⟨es0, rfl⟩ := fit_exts_kind (hwf a hmem) hchk
              obtain ⟨es2, hsub, hvars⟩ := ih hval
              refine ⟨es0 ++ es2, ?_, ?_⟩
              · unfold exts_substitute Substitution.apply_var
                rw [hv]
                simp only [ha, hsub]
              · intro v hvv
                simp only [exts_var_list, List.filterMap_append, List.mem_append] at hvv
                cases hvv with
                | inl h =>
                    exact mem_args_var_list hmem
                      (by simpa [TypeArg.var_list, exts_var_list] using h)
                | inr h => exact hvars v h

theorem row_var_list_append (xs ys : List Ty) :
    row_var_list (xs ++ ys) = row_var_list xs ++ row_var_list ys := by
  induction xs with
  | nil => simp [row_var_list]
  | cons t rest ih => simp [row_var_list, ih]

theorem args_var_list_append (xs ys : List TypeArg) :
    args_var_list (xs ++ ys) = args_var_list xs ++ args_var_list ys := by
  induction xs with
  | nil => simp [args_var_list]
  | cons a rest ih => simp [args_var_list, ih]

theorem args_var_list_map_type (ts : List Ty) :
    args_var_list (ts.map .type) = row_var_list ts := by
  induction ts with
  | nil => simp [args_var_list, row_var_list]
  | cons t rest ih =>
      simp [args_var_list, row_var_list, TypeArg.var_list, ih]

/-- The substitution produced by `TypeArg.substitute` on a type argument
is a type or a sequence. -/
theorem subst_type_shape {ty : Ty} {s : Substitution} {e2 : TypeArg}
    (h : TypeArg.substitute (.type ty) s = some e2) :
    (∃ t1, e2 = .type t1) ∨ (∃ es0, e2 = .sequence es0) := by
  unfold TypeArg.substitute at h
  match hts : ty.substitute s with
  | none => rw [hts] at h; exact absurd h (by simp)
  | some ts =>
      rw [hts] at h
      match ts with
      | [] => exact Or.inr ⟨[], by simpa using h.symm⟩
      | [t1] => exact Or.inl ⟨t1, by simpa using h.symm⟩
      | t1 :: t2 :: r =>
          exact Or.inr ⟨(t1 :: t2 :: r).map .type, by simpa using h.symm⟩

mutual
/-- Substitution succeeds on a validated type under a fitting,
well-formed argument list, and every variable of the resulting row is a
variable of the arguments. -/
theorem subst_ok_ty (t : Ty) (rv : Bool) (reg : ExtensionRegistry) (s : Substitution)
    (decls : List TypeParam)
    (hfit : args_fit s.args decls)
    (hwf : ∀ a ∈ s.args, a.well_formed_uses = true)
    (hval : t.validate rv reg decls = vok) :
    ∃ ts, t.substitute s = some ts ∧
      ∀ v ∈ row_var_list ts, v ∈ args_var_list s.args := by
  match t with
  | .mk (.var idx bound) bb =>
      unfold Ty.validate at hval
      have hdecl := check_typevar_decl_ok (Option.some.inj hval)
      obtain ⟨a, ha, hchk⟩ := hfit idx (.type bound) hdecl
      have hmem : a ∈ s.args := List.get?_mem ha
      obtain ⟨ty, rfl, hnr⟩ := fit_type_kind (hwf a hmem) hchk
      refine ⟨[ty], ?_, ?_⟩
      · unfold Ty.substitute Substitution.apply_var
        rw [ha]
      · intro v hv
        simp only [row_var_list, List.append_nil] at hv
        exact mem_args_var_list hmem (by simpa [TypeArg.var_list] using hv)
  | .mk (.rowVar idx bound) bb =>
      unfold Ty.validate at hval
      split at hval
      · have hdecl := check_typevar_decl_ok (Option.some.inj hval)
        obtain ⟨a, ha, hchk⟩ := hfit idx (.list (.type bound)) hdecl
        have hmem : a ∈ s.args := List.get?_mem ha
        cases fit_list_kind (hwf a hmem) hchk with
        | inl hrv =>
            obtain ⟨i2, vb, b2, rfl⟩ := hrv
            refine ⟨[.mk (.rowVar i2 vb) b2], ?_, ?_⟩
            · unfold Ty.substitute Substitution.apply_rowvar
              rw [ha]
              simp [Ty.is_row_var]
            · intro v hv
              simp only [row_var_list, Ty.var_list, List.append_nil] at hv
              exact mem_args_var_list hmem
                (by simpa [TypeArg.var_list, Ty.var_list] using hv)
        | inr hseq =>
            obtain ⟨elems, rfl, hchkseq⟩ := hseq
            have htypes := seq_elems_are_types (hwf _ hmem) hchkseq
            obtain ⟨tys, hmap, hsubv⟩ := rowvar_arg_expand htypes
            refine ⟨tys, ?_, ?_⟩
            · unfold Ty.substitute Substitution.apply_rowvar
              rw [ha]
              simpa using hmap
            · intro v hv
              exact mem_args_var_list hmem
                (by simpa [TypeArg.var_list] using hsubv v hv)
      · simp [vok] at hval
  | .mk (.alias al) bb =>
      refine ⟨[.mk (.alias al) bb], by unfold Ty.substitute; rfl, ?_⟩
      intro v hv
      simp [row_var_list, Ty.var_list] at hv
  | .mk (.sum (.unit n)) bb =>
      refine ⟨[.mk (.sum (.unit n)) bb], by unfold Ty.substitute; rfl, ?_⟩
      intro v hv
      simp [row_var_list, Ty.var_list] at hv
  | .mk (.ext c) bb =>
      unfold Ty.validate at hval
      obtain ⟨c2, hs, hv2⟩ := subst_ok_custom c reg s decls hfit hwf hval
      refine ⟨[Ty.new_extension c2], ?_, ?_⟩
      · unfold Ty.substitute
        rw [hs]
      · intro v hv
        rw [show row_var_list [Ty.new_extension c2]
            = (Ty.new_extension c2).var_list by simp [row_var_list]] at hv
        rw [var_list_new_extension] at hv
        exact hv2 v hv
  | .mk (.function f) bb =>
      unfold Ty.validate at hval
      obtain ⟨f2, hs, hv2⟩ := subst_ok_fn f reg s decls hfit hwf hval
      refine ⟨[Ty.new_function f2], ?_, ?_⟩
      · unfold Ty.substitute
        rw [hs]
      · intro v hv
        rw [show row_var_list [Ty.new_function f2]
            = (Ty.new_function f2).var_list by simp [row_var_list]] at hv
        rw [var_list_new_function] at hv
        exact hv2 v hv
  | .mk (.sum (.general rows)) bb =>
      unfold Ty.validate at hval
      obtain ⟨rs, hs, hv2⟩ := subst_ok_rows rows reg s decls hfit hwf hval
      refine ⟨[Ty.new_sum rs], ?_, ?_⟩
      · unfold Ty.substitute
        rw [hs]
      · intro v hv
        rw [show row_var_list [Ty.new_sum rs]
            = (Ty.new_sum rs).var_list by simp [row_var_list]] at hv
        exact hv2 v (var_list_new_sum rs v hv)

/-- Substitution succeeds on a validated row. -/
theorem subst_ok_row (row : List Ty) (rv : Bool) (reg : ExtensionRegistry)
    (s : Substitution) (decls : List TypeParam)
    (hfit : args_fit s.args decls)
    (hwf : ∀ a ∈ s.args, a.well_formed_uses = true)
    (hval : validate_row row rv reg decls = vok) :
    ∃ ts, substitute_row row s = some ts ∧
      ∀ v ∈ row_var_list ts, v ∈ args_var_list s.args := by
  match row with
  | [] => exact ⟨[], by unfold substitute_row; rfl, by simp [row_var_list]⟩
  | t :: rest =>
      unfold validate_row at hval
      obtain ⟨h1, h2⟩ := vbind_eq_vok hval
      obtain ⟨ts, hs1, hv1⟩ := subst_ok_ty t rv reg s decls hfit hwf h1
      obtain ⟨rs, hs2, hv2⟩ := subst_ok_row rest rv reg s decls hfit hwf h2
      refine ⟨ts ++ rs, ?_, ?_⟩
      · unfold substitute_row
        rw [hs1, hs2]
      · intro v hv
        rw [row_var_list_append, List.mem_append] at hv
        cases hv with
        | inl h => exact hv1 v h
        | inr h => exact hv2 v h

/-- Substitution succeeds on validated sum rows. -/
theorem subst_ok_rows (rows : List (List Ty)) (reg : ExtensionRegistry)
    (s : Substitution) (decls : List TypeParam)
    (hfit : args_fit s.args decls)
    (hwf : ∀ a ∈ s.args, a.well_formed_uses = true)
    (hval : validate_rows rows reg decls = vok) :
    ∃ rs, substitute_rows rows s = some rs ∧
      ∀ v ∈ rows_var_list rs, v ∈ args_var_list s.args := by
  match rows with
  | [] => exact ⟨[], by unfold substitute_rows; rfl, by simp [rows_var_list]⟩
  | r :: rest =>
      unfold validate_rows at hval
      obtain ⟨h1, h2⟩ := vbind_eq_vok hval
      obtain ⟨r2, hs1, hv1⟩ := subst_ok_row r true reg s decls hfit hwf h1
      obtain ⟨rs, hs2, hv2⟩ := subst_ok_rows rest reg s decls hfit hwf h2
      refine ⟨r2 :: rs, ?_, ?_⟩
      · unfold substitute_rows
        rw [hs1, hs2]
      · intro v hv
        simp only [rows_var_list, List.mem_append] at hv
        cases hv with
        | inl h => exact hv1 v h
        | inr h => exact hv2 v h

/-- Substitution succeeds on a validated custom type. -/
theorem subst_ok_custom (c : CustomType) (reg : ExtensionRegistry)
    (s : Substitution) (decls : List TypeParam)
    (hfit : args_fit s.args decls)
    (hwf : ∀ a ∈ s.args, a.well_formed_uses = true)
    (hval : c.validate reg decls = vok) :
    ∃ c2, c.substitute s = some c2 ∧
      ∀ v ∈ c2.var_list, v ∈ args_var_list s.args := by
  match c with
  | .mk e i args b =>
      unfold CustomType.validate at hval
      obtain ⟨h1, _⟩ := vbind_eq_vok hval
      obtain ⟨a2, hs, hv2⟩ := subst_ok_args args reg s decls hfit hwf h1
      refine ⟨.mk e i a2 b, ?_, ?_⟩
      · unfold CustomType.substitute
        rw [hs]
      · intro v hv
        exact hv2 v (by simpa [CustomType.var_list] using hv)

/-- Substitution succeeds on a validated argument list. -/
theorem subst_ok_args (args : List TypeArg) (reg : ExtensionRegistry)
    (s : Substitution) (decls : List TypeParam)
    (hfit : args_fit s.args decls)
    (hwf : ∀ a ∈ s.args, a.well_formed_uses = true)
    (hval : validate_args args reg decls = vok) :
    ∃ a2, substitute_args args s = some a2 ∧
      ∀ v ∈ args_var_list a2, v ∈ args_var_list s.args := by
  match args with
  | [] => exact ⟨[], by unfold substitute_args; rfl, by simp [args_var_list]⟩
  | a :: rest =>
      unfold validate_args at hval
      obtain ⟨h1, h2⟩ := vbind_eq_vok hval
      obtain ⟨x, hs1, hv1⟩ := subst_ok_arg a reg s decls hfit hwf h1
      obtain ⟨xs, hs2, hv2⟩ := subst_ok_args rest reg s decls hfit hwf h2
      refine ⟨x :: xs, ?_, ?_⟩
      · unfold substitute_args
        rw [hs1, hs2]
      · intro v hv
        simp only [args_var_list, List.mem_append] at hv
        cases hv with
        | inl h => exact hv1 v h
        | inr h => exact hv2 v h

/-- Substitution succeeds on a validated type argument. -/
theorem subst_ok_arg (a : TypeArg) (reg : ExtensionRegistry)
    (s : Substitution) (decls : List TypeParam)
    (hfit : args_fit s.args decls)
    (hwf : ∀ a ∈ s.args, a.well_formed_uses = true)
    (hval : a.validate reg decls = vok) :
    ∃ a2, a.substitute s = some a2 ∧
      ∀ v ∈ a2.var_list, v ∈ args_var_list s.args := by
  match a with
  | .type ty =>
      unfold TypeArg.validate at hval
      obtain ⟨ts, hs, hv2⟩ := subst_ok_ty ty true reg s decls hfit hwf hval
      match ts, hs, hv2 with
      | [], hs, hv2 =>
          refine ⟨.sequence [], ?_, ?_⟩
          · unfold TypeArg.substitute
            rw [hs]
            rfl
          · intro v hv
            simp [TypeArg.var_list, args_var_list] at hv
      | [t1], hs, hv2 =>
          refine ⟨.type t1, ?_, ?_⟩
          · unfold TypeArg.substitute
            rw [hs]
          · intro v hv
            exact hv2 v (by simpa [TypeArg.var_list, row_var_list] using hv)
      | t1 :: t2 :: r, hs, hv2 =>
          refine ⟨.sequence ((t1 :: t2 :: r).map .type), ?_, ?_⟩
          · unfold TypeArg.substitute
            rw [hs]
          · intro v hv
            have h1 : (TypeArg.sequence ((t1 :: t2 :: r).map .type)).var_list
                = args_var_list ((t1 :: t2 :: r).map .type) := by
              rw [TypeArg.var_list]
            rw [h1, args_var_list_map_type] at hv
            exact hv2 v hv
  | .boundedNat n =>
      refine ⟨.boundedNat n, by unfold TypeArg.substitute; rfl, ?_⟩
      intro v hv
      simp [TypeArg.var_list] at hv
  | .sequence elems =>
      unfold TypeArg.validate at hval
      by_cases hall : elems.all (fun e => match e with
        | TypeArg.type _ => true
        | _ => false) = true
      · have htypes : ∀ e ∈ elems, ∃ ty, e = .type ty := by
          intro e he
          have := (List.all_eq_true.mp hall) e he
          match e, this with
          | .type ty, _ => exact ⟨ty, rfl⟩
        obtain ⟨es, hs, hv2⟩ := subst_ok_seq elems reg s decls hfit hwf htypes hval
        refine ⟨.sequence es, ?_, ?_⟩
        · unfold TypeArg.substitute
          rw [if_pos hall, hs]
        · intro v hv
          exact hv2 v (by simpa [TypeArg.var_list] using hv)
      · obtain ⟨es, hs, hv2⟩ := subst_ok_args elems reg s decls hfit hwf hval
        refine ⟨.sequence es, ?_, ?_⟩
        · unfold TypeArg.substitute
          rw [if_neg hall, hs]
        · intro v hv
          exact hv2 v (by simpa [TypeArg.var_list] using hv)
  | .exts es =>
      unfold TypeArg.validate at hval
      obtain ⟨es2, hs, hv2⟩ := subst_ok_exts hfit hwf (Option.some.inj hval)
      refine ⟨.exts es2, ?_, ?_⟩
      · unfold TypeArg.substitute
        rw [hs]
      · intro v hv
        exact hv2 v (by simpa [TypeArg.var_list] using hv)
  | .var idx decl =>
      unfold TypeArg.validate at hval
      have hdecl := check_typevar_decl_ok (Option.some.inj hval)
      obtain ⟨a2, ha, _⟩ := hfit idx decl hdecl
      refine ⟨a2, ?_, ?_⟩
      · unfold TypeArg.substitute Substitution.apply_var
        exact ha
      · intro v hv
        exact mem_args_var_list (List.get?_mem ha) hv

/-- Substitution succeeds on a validated all-types sequence, splicing
expanded row variables in place. -/
theorem subst_ok_seq (elems : List TypeArg) (reg : ExtensionRegistry)
    (s : Substitution) (decls : List TypeParam)
    (hfit : args_fit s.args decls)
    (hwf : ∀ a ∈ s.args, a.well_formed_uses = true)
    (htypes : ∀ e ∈ elems, ∃ ty, e = .type ty)
    (hval : validate_args elems reg decls = vok) :
    ∃ es, substitute_seq_types elems s = some es ∧
      ∀ v ∈ args_var_list es, v ∈ args_var_list s.args := by
  match elems with
  | [] => exact ⟨[], by unfold substitute_seq_types; rfl, by simp [args_var_list]⟩
  | e :: rest =>
      unfold validate_args at hval
      obtain ⟨h1, h2⟩ := vbind_eq_vok hval
      obtain ⟨e2, hse, hve⟩ := subst_ok_arg e reg s decls hfit hwf h1
      obtain ⟨rest2, hsr, hvr⟩ := subst_ok_seq rest reg s decls hfit hwf
        (fun x hx => htypes x (List.mem_cons_of_mem _ hx)) h2
      obtain ⟨ty, rfl⟩ := htypes e (List.mem_cons_self _ _)
      cases subst_type_shape hse with
      | inl ht =>
          obtain ⟨t1, rfl⟩ := ht
          refine ⟨.type t1 :: rest2, ?_, ?_⟩
          · unfold substitute_seq_types
            rw [hse, hsr]
          · intro v hv
            simp only [args_var_list, List.mem_append] at hv
            cases hv with
            | inl h => exact hve v h
            | inr h => exact hvr v h
      | inr ht =>
          obtain ⟨es0, rfl⟩ := ht
          refine ⟨es0 ++ rest2, ?_, ?_⟩
          · unfold substitute_seq_types
            rw [hse, hsr]
          · intro v hv
            rw [args_var_list_append, List.mem_append] at hv
            cases hv with
            | inl h => exact hve v (by simpa [TypeArg.var_list] using h)
            | inr h => exact hvr v h

/-- Substitution succeeds on a validated function type. -/
theorem subst_ok_fn (f : FunctionType) (reg : ExtensionRegistry)
    (s : Substitution) (decls : List TypeParam)
    (hfit : args_fit s.args decls)
    (hwf : ∀ a ∈ s.args, a.well_formed_uses = true)
    (hval : f.validate_var_len reg decls = vok) :
    ∃ f2, f.substitute s = some f2 ∧
      ∀ v ∈ f2.var_list, v ∈ args_var_list s.args := by
  match f with
  | .mk inp out reqs =>
      unfold FunctionType.validate_var_len at hval
      obtain ⟨h1, hrest⟩ := vbind_eq_vok hval
      obtain ⟨h2, h3⟩ := vbind_eq_vok hrest
      obtain ⟨i2, hsi, hvi⟩ := subst_ok_row inp true reg s decls hfit hwf h1
      obtain ⟨o2, hso, hvo⟩ := subst_ok_row out true reg s decls hfit hwf h2
      obtain ⟨r2, hsr, hvr⟩ := subst_ok_exts hfit hwf (Option.some.inj h3)
      refine ⟨.mk i2 o2 r2, ?_, ?_⟩
      · unfold FunctionType.substitute
        rw [hsi, hso, hsr]
      · intro v hv
        simp only [FunctionType.var_list, List.mem_append] at hv
        rcases hv with (h | h) | h
        · exact hvi v h
        · exact hvo v h
        · exact hvr v h
end

/-- An extension set with no undeclared variables (hence, against an
empty scope, no variables at all) substitutes to itself. -/
theorem id_exts {es : ExtensionSet} {s : Substitution}
    (hval : exts_validate es [] = .ok ()) : exts_substitute es s = some es := by
  induction es with
  | nil => rfl
  | cons e rest ih =>
      unfold exts_validate at hval
      split at hval
      · next hv =>
          unfold exts_substitute
          rw [hv, ih hval]
          rfl
      · next i hv =>
          split at hval
          · exact absurd hval (by simp)
          · next u hd => simp [check_typevar_decl] at hd

mutual
/-- A canonical type that validates against the empty scope is returned
unchanged (as a single-type row) by any substitution over an empty
argument list. -/
theorem id_ty (t : Ty) (rv : Bool) (reg : ExtensionRegistry) (s : Substitution)
    (hc : t.canonical = true) (hval : t.validate rv reg [] = vok) :
    t.substitute s = some [t] := by
  match t with
  | .mk (.var idx bound) bb =>
      unfold Ty.validate at hval
      have := check_typevar_decl_ok (Option.some.inj hval)
      simp at this
  | .mk (.rowVar idx bound) bb =>
      unfold Ty.validate at hval
      split at hval
      · have := check_typevar_decl_ok (Option.some.inj hval)
        simp at this
      · simp [vok] at hval
  | .mk (.alias al) bb => unfold Ty.substitute; rfl
  | .mk (.sum (.unit n)) bb => unfold Ty.substitute; rfl
  | .mk (.ext c) bb =>
      unfold Ty.validate at hval
      unfold Ty.canonical at hc
      rw [Bool.and_eq_true] at hc
      have hcc : CustomType.canonical c = true := by
        have := hc.1
        simpa [TypeEnum.canonical] using this
      have hbb : bb = c.bound := by
        have := hc.2
        simpa [TypeEnum.least_upper_bound] using this
      unfold Ty.substitute
      rw [id_custom c reg s hcc hval]
      rw [hbb]
      rfl
  | .mk (.function f) bb =>
      unfold Ty.validate at hval
      unfold Ty.canonical at hc
      rw [Bool.and_eq_true] at hc
      have hcf : FunctionType.canonical f = true := by
        have := hc.1
        simpa [TypeEnum.canonical] using this
      have hbb : bb = .copyable := by
        have := hc.2
        simpa [TypeEnum.least_upper_bound] using this
      unfold Ty.substitute
      rw [id_fn f reg s hcf hval]
      rw [hbb]
      rfl
  | .mk (.sum (.general rows)) bb =>
      unfold Ty.validate at hval
      unfold Ty.canonical at hc
      rw [Bool.and_eq_true] at hc
      have hnc : ¬ (rows.length ≤ 255 ∧ rows.all List.isEmpty = true) := by
        have h1 := hc.1
        unfold TypeEnum.canonical at h1
        split at h1
        · exact absurd h1 (by simp)
        · assumption
      have hrc : rows_canonical rows = true := by
        have h1 := hc.1
        unfold TypeEnum.canonical at h1
        split at h1
        · exact absurd h1 (by simp)
        · exact h1
      unfold Ty.substitute
      rw [id_rows rows reg s hrc hval]
      have hbb : bb = (TypeEnum.sum (.general rows)).least_upper_bound :=
        of_decide_eq_true hc.2
      have hnew : SumType.new rows = .general rows := by
        unfold SumType.new
        rw [if_neg hnc]
      show some [Ty.new_sum rows] = some [Ty.mk (.sum (.general rows)) bb]
      unfold Ty.new_sum Ty.new
      rw [hnew, hbb]

/-- A canonical row that validates against the empty scope substitutes
to itself. -/
theorem id_row (row : List Ty) (rv : Bool) (reg : ExtensionRegistry) (s : Substitution)
    (hc : row_canonical row = true) (hval : validate_row row rv reg [] = vok) :
    substitute_row row s = some row := by
  match row with
  | [] => rfl
  | t :: rest =>
      unfold validate_row at hval
      obtain ⟨h1, h2⟩ := vbind_eq_vok hval
      unfold row_canonical at hc
      rw [Bool.and_eq_true] at hc
      unfold substitute_row
      rw [id_ty t rv reg s hc.1 h1, id_row rest rv reg s hc.2 h2]
      rfl

/-- Canonical sum rows validating against the empty scope substitute to
themselves. -/
theorem id_rows (rows : List (List Ty)) (reg : ExtensionRegistry) (s : Substitution)
    (hc : rows_canonical rows = true) (hval : validate_rows rows reg [] = vok) :
    substitute_rows rows s = some rows := by
  match rows with
  | [] => rfl
  | r :: rest =>
      unfold validate_rows at hval
      obtain ⟨h1, h2⟩ := vbind_eq_vok hval
      unfold rows_canonical at hc
      rw [Bool.and_eq_true] at hc
      unfold substitute_rows
      rw [id_row r true reg s hc.1 h1, id_rows rest reg s hc.2 h2]

/-- A canonical custom type validating against the empty scope
substitutes to itself. -/
theorem id_custom (c : CustomType) (reg : ExtensionRegistry) (s : Substitution)
    (hc : c.canonical = true) (hval : c.validate reg [] = vok) :
    c.substitute s = some c := by
  match c with
  | .mk e i args b =>
      unfold CustomType.validate at hval
      obtain ⟨h1, _⟩ := vbind_eq_vok hval
      have hca : args_canonical args = true := by
        simpa [CustomType.canonical] using hc
      unfold CustomType.substitute
      rw [id_args args reg s hca h1]

/-- Canonical argument lists validating against the empty scope
substitute to themselves. -/
theorem id_args (args : List TypeArg) (reg : ExtensionRegistry) (s : Substitution)
    (hc : args_canonical args = true) (hval : validate_args args reg [] = vok) :
    substitute_args args s = some args := by
  match args with
  | [] => rfl
  | a :: rest =>
      unfold validate_args at hval
      obtain ⟨h1, h2⟩ := vbind_eq_vok hval
      unfold args_canonical at hc
      rw [Bool.and_eq_true] at hc
      unfold substitute_args
      rw [id_arg a reg s hc.1 h1, id_args rest reg s hc.2 h2]

/-- A canonical type argument validating against the empty scope
substitutes to itself. -/
theorem id_arg (a : TypeArg) (reg : ExtensionRegistry) (s : Substitution)
    (hc : a.canonical = true) (hval : a.validate reg [] = vok) :
    a.substitute s = some a := by
  match a with
  | .type ty =>
      unfold TypeArg.validate at hval
      have hct : ty.canonical = true := by simpa [TypeArg.canonical] using hc
      unfold TypeArg.substitute
      rw [id_ty ty true reg s hct hval]
  | .boundedNat n => rfl
  | .sequence elems =>
      unfold TypeArg.validate at hval
      have hce : args_canonical elems = true := by
        simpa [TypeArg.canonical] using hc
      unfold TypeArg.substitute
      by_cases hall : elems.all (fun e => match e with
        | TypeArg.type _ => true
        | _ => false) = true
      · rw [if_pos hall]
        have htypes : ∀ e ∈ elems, ∃ ty, e = .type ty := by
          intro e he
          have := (List.all_eq_true.mp hall) e he
          match e, this with
          | .type ty, _ => exact ⟨ty, rfl⟩
        rw [id_seq elems reg s htypes hce hval]
      · rw [if_neg hall]
        rw [id_args elems reg s hce hval]
  | .exts es =>
      unfold TypeArg.validate at hval
      unfold TypeArg.substitute
      rw [id_exts (Option.some.inj hval)]
  | .var idx decl =>
      unfold TypeArg.validate at hval
      have := check_typevar_decl_ok (Option.some.inj hval)
      simp at this

/-- A canonical all-types sequence validating against the empty scope
substitutes (with splicing) to itself. -/
theorem id_seq (elems : List TypeArg) (reg : ExtensionRegistry) (s : Substitution)
    (htypes : ∀ e ∈ elems, ∃ ty, e = .type ty)
    (hc : args_canonical elems = true) (hval : validate_args elems reg [] = vok) :
    substitute_seq_types elems s = some elems := by
  match elems with
  | [] => rfl
  | e :: rest =>
      unfold validate_args at hval
      obtain ⟨h1, h2⟩ := vbind_eq_vok hval
      unfold args_canonical at hc
      rw [Bool.and_eq_true] at hc
      obtain ⟨ty, rfl⟩ := htypes e (List.mem_cons_self _ _)
      have hct : ty.canonical = true := by simpa [TypeArg.canonical] using hc.1
      have hser : TypeArg.substitute (.type ty) s = some (.type ty) := by
        unfold TypeArg.substitute
        rw [id_ty ty true reg s hct (by simpa [TypeArg.validate] using h1)]
      unfold substitute_seq_types
      rw [hser,
        id_seq rest reg s (fun x hx => htypes x (List.mem_cons_of_mem _ hx)) hc.2 h2]

/-- A canonical function type whose rows validate (row variables
allowed) against the empty scope substitutes to itself. -/
theorem id_fn (f : FunctionType) (reg : ExtensionRegistry) (s : Substitution)
    (hc : f.canonical = true) (hval : f.validate_var_len reg [] = vok) :
    f.substitute s = some f := by
  match f with
  | .mk inp out reqs =>
      unfold FunctionType.validate_var_len at hval
      obtain ⟨h1, hrest⟩ := vbind_eq_vok hval
      obtain ⟨h2, h3⟩ := vbind_eq_vok hrest
      unfold FunctionType.canonical at hc
      rw [Bool.and_eq_true] at hc
      unfold FunctionType.substitute
      rw [id_row inp true reg s hc.1 h1, id_row out true reg s hc.2 h2,
        id_exts (Option.some.inj h3)]
end

/-! ## Claims -/

/-- Claim C1: for the graph consisting of the default single parentless
root node, adding a second parentless node (one never given a parent)
makes `validate` return a failure that names the new node as the
offending rootless node, while the original single-root graph validates
successfully. -/
theorem C1_root_discipline :
    Hugr.new.validate = .ok () ∧
    (Hugr.new.add_node).1.validate =
      .error (.NoParent (Hugr.new.add_node).2) := by
  constructor <;> rfl

/-- Claim C6: `TypeBound.union` is commutative, associative and
idempotent; `Any` is absorbing and `Eq` is the identity element. -/
theorem C6_typebound_union_algebra :
    (∀ a b : TypeBound, a.union b = b.union a) ∧
    (∀ a b c : TypeBound, (a.union b).union c = a.union (b.union c)) ∧
    (∀ a : TypeBound, a.union a = a) ∧
    (∀ b : TypeBound, TypeBound.any.union b = .any) ∧
    (∀ b : TypeBound, TypeBound.eq.union b = b) := by
  refine ⟨?_, ?_, ?_, ?_, ?_⟩
  · intro a b; cases a <;> cases b <;> rfl
  · intro a b c; cases a <;> cases b <;> cases c <;> rfl
  · intro a; cases a <;> rfl
  · intro b; cases b <;> rfl
  · intro b; cases b <;> rfl

/-- Claim C5: `SumType::new` over an all-empty-row list of length at
most 255 produces the `Unit` form (never `General`), whose
`get_variant` answers, below the size, the same empty row as the
literal `General` form over the same rows; a list with a non-empty row
or more than 255 rows produces the `General` form. -/
theorem C5_sum_new_unit (variants : List (List Ty)) :
    (variants.length ≤ 255 → variants.all List.isEmpty = true →
      SumType.new variants = .unit variants.length ∧
      ∀ tag, tag < variants.length →
        (SumType.new variants).get_variant tag = some [] ∧
        (SumType.general variants).get_variant tag = some []) ∧
    (¬ (variants.length ≤ 255 ∧ variants.all List.isEmpty = true) →
      SumType.new variants = .general variants) := by
  constructor
  · intro h1 h2
    have hnew : SumType.new variants = .unit variants.length := by
      unfold SumType.new
      rw [if_pos ⟨h1, h2⟩]
    refine ⟨hnew, ?_⟩
    intro tag htag
    have hget : ∀ (l : List (List Ty)) (t : Nat), l.all List.isEmpty = true →
        t < l.length → l.get? t = some [] := by
      intro l
      induction l with
      | nil => intro t _ ht; simp at ht
      | cons r rest ih =>
          intro t hall ht
          rw [List.all_cons, Bool.and_eq_true] at hall
          match t with
          | 0 =>
              have hr : r = [] := by
                have := hall.1
                simpa [List.isEmpty_iff] using this
              simp [hr]
          | t + 1 =>
              simp only [List.get?]
              exact ih t hall.2 (by simpa using ht)
    constructor
    · rw [hnew]
      show (if tag < variants.length then some ([] : List Ty) else none) = some []
      rw [if_pos htag]
    · unfold SumType.get_variant
      exact hget variants tag h2 htag
  · intro h
    unfold SumType.new
    rw [if_neg h]

/-- Claim C5, witnessed at the two-empty-variant list. -/
theorem C5_sum_new_unit_witness :
    ([[], []] : List (List Ty)).length ≤ 255 ∧
    ([[], []] : List (List Ty)).all List.isEmpty = true ∧
    SumType.new ([[], []] : List (List Ty)) = .unit 2 ∧
    (SumType.new ([[], []] : List (List Ty))).get_variant 1 = some [] ∧
    (SumType.general ([[], []] : List (List Ty))).get_variant 1 = some [] :=
  have h := (C5_sum_new_unit ([[], []] : List (List Ty))).1
    (by decide) (by decide)
  ⟨by decide, by decide, h.1, (h.2 1 (by decide)).1, (h.2 1 (by decide)).2⟩

/-- Claim C7: every `Type` built through the public constructors caches
exactly the bound that `TypeEnum::least_upper_bound` recomputes from
its variant; in particular a function type is `Copyable`, a unit sum is
`Eq`, and a non-compacted sum's bound is the least upper bound over
every element type of every variant row. -/
theorem C7_cached_bound_invariant :
    (∀ f, (Ty.new_function f).least_upper_bound
      = (Ty.new_function f).as_type_enum.least_upper_bound) ∧
    (∀ row, (Ty.new_tuple row).least_upper_bound
      = (Ty.new_tuple row).as_type_enum.least_upper_bound) ∧
    (∀ rows, (Ty.new_sum rows).least_upper_bound
      = (Ty.new_sum rows).as_type_enum.least_upper_bound) ∧
    (∀ c, (Ty.new_extension c).least_upper_bound
      = (Ty.new_extension c).as_type_enum.least_upper_bound) ∧
    (∀ a, (Ty.new_alias a).least_upper_bound
      = (Ty.new_alias a).as_type_enum.least_upper_bound) ∧
    (∀ n, (Ty.new_unit_sum n).least_upper_bound
      = (Ty.new_unit_sum n).as_type_enum.least_upper_bound) ∧
    (∀ i b, (Ty.new_var_use i b).least_upper_bound
      = (Ty.new_var_use i b).as_type_enum.least_upper_bound) ∧
    (∀ i b, (Ty.new_row_var_use i b).least_upper_bound
      = (Ty.new_row_var_use i b).as_type_enum.least_upper_bound) ∧
    (∀ f, (Ty.new_function f).least_upper_bound = .copyable) ∧
    (∀ n, (Ty.new_unit_sum n).least_upper_bound = .eq) ∧
    (∀ rows, SumType.new rows = .general rows →
      (Ty.new_sum rows).least_upper_bound
        = least_upper_bound (rows.flatten.map Ty.least_upper_bound)) := by
  refine ⟨fun f => rfl, ?_, fun rows => rfl, fun c => rfl, fun a => rfl,
    fun n => rfl, fun i b => rfl, fun i b => rfl, fun f => rfl, fun n => rfl, ?_⟩
  · intro row
    match row with
    | [] => rfl
    | t :: rest => rfl
  · intro rows h
    unfold Ty.new_sum Ty.new
    rw [h]
    rfl

/-- Claim C7, witnessed at a one-variant sum over the unit type (kept in
`General` form by `SumType::new` since its row is non-empty). -/
theorem C7_cached_bound_invariant_witness :
    SumType.new [[Ty.UNIT]] = .general [[Ty.UNIT]] ∧
    (Ty.new_sum [[Ty.UNIT]]).least_upper_bound
      = least_upper_bound (([[Ty.UNIT]] : List (List Ty)).flatten.map Ty.least_upper_bound) :=
  have hg : SumType.new [[Ty.UNIT]] = .general [[Ty.UNIT]] := by
    unfold SumType.new
    rw [if_neg (by decide)]
  ⟨hg, (C7_cached_bound_invariant).2.2.2.2.2.2.2.2.2.2 [[Ty.UNIT]] hg⟩

/-- Claim C10: the `From<FunctionType<false>> for FunctionType<true>`
conversion yields a signature whose input row and output row are both
the (converted) input row of the source — the source's output row is
discarded — while the extension requirements are carried over. -/
theorem C10_from_impl_copies_input (f : FunctionTypeNRV) :
    (f.into_rv).input = row_into_rv f.input ∧
    (f.into_rv).output = row_into_rv f.input ∧
    (f.into_rv).extension_reqs = f.extension_reqs ∧
    ∀ g : FunctionTypeNRV, g.input = f.input → g.extension_reqs = f.extension_reqs →
      g.into_rv = f.into_rv := by
  refine ⟨rfl, rfl, rfl, ?_⟩
  intro g h1 h2
  unfold FunctionTypeNRV.into_rv
  rw [h1, h2]

/-- Claim C10, witnessed at two signatures differing only in their
output row: the conversion cannot tell them apart. -/
theorem C10_from_impl_copies_input_witness :
    (FunctionTypeNRV.mk [] [] []).input = (FunctionTypeNRV.mk [] [⟨Ty.UNIT, rfl⟩] []).input ∧
    (FunctionTypeNRV.mk [] [] []).extension_reqs
      = (FunctionTypeNRV.mk [] [⟨Ty.UNIT, rfl⟩] []).extension_reqs ∧
    (FunctionTypeNRV.mk [] [] []).into_rv
      = (FunctionTypeNRV.mk [] [⟨Ty.UNIT, rfl⟩] []).into_rv :=
  ⟨rfl, rfl,
    (C10_from_impl_copies_input (FunctionTypeNRV.mk [] [⟨Ty.UNIT, rfl⟩] [])).2.2.2
      (FunctionTypeNRV.mk [] [] []) rfl rfl⟩

/-- Claim C8, counterexample: `instantiate_extension_op` on an extension
that defines no operation of the requested name panics (the
`.expect("Op not found.")` lookup), rather than returning a signature
error: the call's outcome is the panic `none`, not any returned value. -/
theorem C8_missing_op_counterexample :
    Extension.instantiate_extension_op ⟨"myext", [], []⟩ "foo" [] [] = none ∧
    ¬ ∃ r : Except SignatureError ExtensionOp,
      Extension.instantiate_extension_op ⟨"myext", [], []⟩ "foo" [] [] = some r := by
  have h : Extension.instantiate_extension_op ⟨"myext", [], []⟩ "foo" [] [] = none := rfl
  refine ⟨h, ?_⟩
  rintro ⟨r, hr⟩
  rw [h] at hr
  exact absurd hr (by simp)

/-- Claim C8 (amended): when the extension defines no operation of the
given name, `instantiate_extension_op` panics rather than returning an
error; when the operation exists, the call returns its instantiation
outcome, and in particular an argument-check failure comes back as a
signature error. -/
theorem C8_instantiate_extension_op_amended (e : Extension) (op_name : String)
    (args : List TypeArg) (reg : ExtensionRegistry) :
    (e.get_op op_name = none →
      e.instantiate_extension_op op_name args reg = none) ∧
    ∀ d, e.get_op op_name = some d →
      e.instantiate_extension_op op_name args reg = ExtensionOp.new d args reg ∧
      ∀ er, check_type_args args d.signature.params = .error er →
        e.instantiate_extension_op op_name args reg =
          some (.error (.TypeArgMismatch er)) := by
  constructor
  · intro h
    unfold Extension.instantiate_extension_op
    rw [h]
  · intro d h
    have h1 : e.instantiate_extension_op op_name args reg = ExtensionOp.new d args reg := by
      unfold Extension.instantiate_extension_op
      rw [h]
    refine ⟨h1, ?_⟩
    intro er her
    rw [h1]
    unfold ExtensionOp.new PolyFuncType.instantiate_all
    rw [her]

/-- Claim C8 (amended), witnessed at an extension with a single nullary
operation called with a spurious argument. -/
theorem C8_instantiate_extension_op_amended_witness :
    (Extension.mk "E" [] [("op", ⟨"op", ⟨[], FunctionType.new [] []⟩⟩)]).get_op "op"
      = some ⟨"op", ⟨[], FunctionType.new [] []⟩⟩ ∧
    check_type_args [TypeArg.boundedNat 0] ([] : List TypeParam)
      = .error (.WrongNumberArgs 1 0) ∧
    (Extension.mk "E" [] [("op", ⟨"op", ⟨[], FunctionType.new [] []⟩⟩)]).instantiate_extension_op
        "op" [TypeArg.boundedNat 0] []
      = some (.error (.TypeArgMismatch (.WrongNumberArgs 1 0))) :=
  have hop : (Extension.mk "E" [] [("op", ⟨"op", ⟨[], FunctionType.new [] []⟩⟩)]).get_op "op"
      = some ⟨"op", ⟨[], FunctionType.new [] []⟩⟩ := by
    unfold Extension.get_op
    simp [List.find?]
  have hchk : check_type_args [TypeArg.boundedNat 0] ([] : List TypeParam)
      = .error (.WrongNumberArgs 1 0) := by
    unfold check_type_args
    simp
  ⟨hop, hchk,
    ((C8_instantiate_extension_op_amended
        (Extension.mk "E" [] [("op", ⟨"op", ⟨[], FunctionType.new [] []⟩⟩)]) "op"
        [TypeArg.boundedNat 0] []).2
      ⟨"op", ⟨[], FunctionType.new [] []⟩⟩ hop).2 (.WrongNumberArgs 1 0) hchk⟩

/-- Claim C4: with individually valid arguments, `CustomType::validate`
reports extension-not-found when the registry lacks the extension,
type-not-found when the extension lacks the definition, and a
wrong-bound error whenever the recomputed bound differs from the
cached one (checked by equality, never silently fixed); it succeeds
exactly when the lookups succeed, the identities match, the arguments
fit the definition's parameters and the cached bound equals the
computed one. -/
theorem C4_custom_type_validate (c : CustomType) (reg : ExtensionRegistry)
    (decls : List TypeParam)
    (hargs : validate_args c.args reg decls = vok) :
    (reg.get c.extension = none →
      c.validate reg decls = some (.error (.ExtensionNotFound c.extension))) ∧
    (∀ ex, reg.get c.extension = some ex → ex.get_type c.name = none →
      c.validate reg decls = some (.error (.ExtensionTypeNotFound c.extension c.name))) ∧
    (∀ ex d computed, reg.get c.extension = some ex → ex.get_type c.name = some d →
      d.extension = c.extension → d.name = c.name →
      check_type_args c.args d.params = .ok () →
      d.compute_bound c.args = some computed → computed ≠ c.bound →
      c.validate reg decls = some (.error (.WrongBound c.bound computed))) ∧
    (c.validate reg decls = vok ↔
      ∃ ex d, reg.get c.extension = some ex ∧ ex.get_type c.name = some d ∧
        d.extension = c.extension ∧ d.name = c.name ∧
        check_type_args c.args d.params = .ok () ∧
        d.compute_bound c.args = some c.bound) := by
  obtain ⟨e, i, args, b⟩ := c
  simp only [CustomType.extension, CustomType.name, CustomType.args,
    CustomType.bound] at *
  have hbody : CustomType.validate (.mk e i args b) reg decls =
      (match reg.get e with
       | none => some (.error (.ExtensionNotFound e))
       | some ex =>
           match ex.get_type i with
           | none => some (.error (.ExtensionTypeNotFound e i))
           | some d => d.check_custom (.mk e i args b)) := by
    unfold CustomType.validate
    rw [hargs]
    rfl
  refine ⟨?_, ?_, ?_, ?_⟩
  · intro h
    rw [hbody, h]
  · intro ex hex hty
    rw [hbody]
    simp only [hex, hty]
  · intro ex d computed hex hty hde hdn hchk hcb hne
    rw [hbody]
    simp only [hex, hty]
    unfold TypeDef.check_custom
    simp only [CustomType.extension, CustomType.name, CustomType.args,
      CustomType.bound]
    rw [if_neg (by simp [hde]), if_neg (by simp [hdn])]
    simp only [hchk, hcb]
    rw [if_neg hne]
  · constructor
    · intro h
      rw [hbody] at h
      match hex : reg.get e with
      | none =>
          simp only [hex] at h
          exact absurd h (by simp [vok])
      | some ex =>
          simp only [hex] at h
          match hty : ex.get_type i with
          | none =>
              simp only [hty] at h
              exact absurd h (by simp [vok])
          | some d =>
              simp only [hty] at h
              unfold TypeDef.check_custom at h
              simp only [CustomType.extension, CustomType.name, CustomType.args,
                CustomType.bound] at h
              refine ⟨ex, d, rfl, hty, ?_⟩
              split at h
              · exact absurd h (by simp [vok])
              · next hde =>
                  split at h
                  · exact absurd h (by simp [vok])
                  · next hdn =>
                      refine ⟨by simpa using hde, by simpa using hdn, ?_⟩
                      split at h
                      · exact absurd h (by simp [vok])
                      · next u hchk =>
                          cases u
                          refine ⟨hchk, ?_⟩
                          split at h
                          · exact absurd h (by simp [vok])
                          · next calculated hcb =>
                              split at h
                              · next hcbeq => rw [hcb, hcbeq]
                              · exact absurd h (by simp [vok])
    · rintro ⟨ex, d, hex, hty, hde, hdn, hchk, hcb⟩
      rw [hbody]
      simp only [hex, hty]
      unfold TypeDef.check_custom
      simp only [CustomType.extension, CustomType.name, CustomType.args,
        CustomType.bound]
      rw [if_neg (by simp [hde]), if_neg (by simp [hdn])]
      simp only [hchk, hcb]
      simp

/-- Claim C4, witnessed at a registry holding one extension with one
parameterless explicit-bound type definition. -/
theorem C4_custom_type_validate_witness :
    validate_args (CustomType.mk "E" "T" [] .any).args
        [Extension.mk "E" [("T", ⟨"E", "T", [], .explicit .any⟩)] []] [] = vok ∧
    (CustomType.mk "E" "T" [] .any).validate
        [Extension.mk "E" [("T", ⟨"E", "T", [], .explicit .any⟩)] []] [] = vok :=
  have hargs : validate_args (CustomType.mk "E" "T" [] .any).args
      [Extension.mk "E" [("T", ⟨"E", "T", [], .explicit .any⟩)] []] [] = vok := by
    unfold CustomType.args validate_args
    rfl
  ⟨hargs,
    (C4_custom_type_validate (CustomType.mk "E" "T" [] .any)
        [Extension.mk "E" [("T", ⟨"E", "T", [], .explicit .any⟩)] []] [] hargs).2.2.2.mpr
      ⟨Extension.mk "E" [("T", ⟨"E", "T", [], .explicit .any⟩)] [],
        ⟨"E", "T", [], .explicit .any⟩,
        by unfold ExtensionRegistry.get; simp [List.find?, CustomType.extension],
        by unfold Extension.get_type; simp [List.find?, CustomType.name],
        rfl, rfl,
        by unfold check_type_args; simp [check_type_args.go, CustomType.args],
        by unfold TypeDef.compute_bound; rfl⟩⟩

/-- Claim C2: for every closed polymorphic function type whose body
validates against its declared parameters and every representation-
well-formed argument list matching those parameters in kind and bound,
`instantiate_all` succeeds and every variable of the resulting
`FunctionType` comes from the supplied arguments — no variable index
refers to the instantiated scope. -/
theorem C2_instantiate_all_closed (ps : List TypeParam) (body : FunctionType)
    (args : List TypeArg) (reg reg2 : ExtensionRegistry)
    (hval : body.validate_var_len reg ps = vok)
    (hargs : check_type_args args ps = .ok ())
    (hwf : ∀ a ∈ args, a.well_formed_uses = true) :
    ∃ ft, PolyFuncType.instantiate_all ⟨ps, body⟩ args reg2 = some (.ok ft) ∧
      ∀ v ∈ ft.var_list, v ∈ args_var_list args := by
  have hfit : args_fit args ps := check_type_args_fit hargs
  obtain ⟨f2, hs, hv⟩ :=
    subst_ok_fn body reg (Substitution.mk args reg2) ps hfit hwf hval
  refine ⟨f2, ?_, hv⟩
  unfold PolyFuncType.instantiate_all
  rw [show (PolyFuncType.mk ps body).params = ps from rfl, hargs,
    show (PolyFuncType.mk ps body).body = body from rfl, hs]

/-- Claim C2, witnessed at the identity scheme over one any-bounded type
parameter, instantiated with the unit type. -/
theorem C2_instantiate_all_closed_witness :
    (FunctionType.mk [Ty.new_var_use 0 .any] [Ty.new_var_use 0 .any] []).validate_var_len
        EMPTY_REG [.type .any] = vok ∧
    check_type_args [.type Ty.UNIT] [.type .any] = .ok () ∧
    (∀ a ∈ ([.type Ty.UNIT] : List TypeArg), a.well_formed_uses = true) ∧
    ∃ ft, PolyFuncType.instantiate_all
        ⟨[.type .any], FunctionType.mk [Ty.new_var_use 0 .any] [Ty.new_var_use 0 .any] []⟩
        [.type Ty.UNIT] EMPTY_REG = some (.ok ft) ∧
      ∀ v ∈ ft.var_list, v ∈ args_var_list [.type Ty.UNIT] :=
  have hval : (FunctionType.mk [Ty.new_var_use 0 .any] [Ty.new_var_use 0 .any]
      []).validate_var_len EMPTY_REG [.type .any] = vok := by
    unfold FunctionType.validate_var_len validate_row Ty.validate
    simp [Ty.new_var_use, check_typevar_decl, vbind, vok, exts_validate, validate_row]
  have hargs : check_type_args [.type Ty.UNIT] [.type .any] = .ok () := by
    unfold check_type_args
    simp [check_type_args.go, check_type_arg, Ty.UNIT, Ty.is_row_var,
      Ty.least_upper_bound, TypeBound.contains]
  have hwf : ∀ a ∈ ([.type Ty.UNIT] : List TypeArg), a.well_formed_uses = true := by
    intro a ha
    simp only [List.mem_singleton] at ha
    subst ha
    rfl
  ⟨hval, hargs, hwf,
    C2_instantiate_all_closed [.type .any]
      (FunctionType.mk [Ty.new_var_use 0 .any] [Ty.new_var_use 0 .any] [])
      [.type Ty.UNIT] EMPTY_REG EMPTY_REG hval hargs hwf⟩

/-- Claim C9: applying a substitution built from an empty argument list
(and any registry) to a canonical `Type` that validates in an empty
variable scope, or to a canonical `FunctionType` that validates in an
empty variable scope, returns it unchanged (for a type, as the
singleton row holding it). -/
theorem C9_empty_substitution_identity (t : Ty) (f : FunctionType) (rv : Bool)
    (regt regf regs regs2 : ExtensionRegistry)
    (hct : t.canonical = true) (hvt : t.validate rv regt [] = vok)
    (hcf : f.canonical = true) (hvf : f.validate_var_len regf [] = vok) :
    t.substitute ⟨[], regs⟩ = some [t] ∧ f.substitute ⟨[], regs2⟩ = some f :=
  ⟨id_ty t rv regt ⟨[], regs⟩ hct hvt, id_fn f regf ⟨[], regs2⟩ hcf hvf⟩

/-- Claim C9, witnessed at the unit type and the empty function type. -/
theorem C9_empty_substitution_identity_witness :
    Ty.UNIT.canonical = true ∧ Ty.UNIT.validate false EMPTY_REG [] = vok ∧
    (FunctionType.mk [] [] []).canonical = true ∧
    (FunctionType.mk [] [] []).validate_var_len EMPTY_REG [] = vok ∧
    Ty.UNIT.substitute ⟨[], EMPTY_REG⟩ = some [Ty.UNIT] ∧
    (FunctionType.mk [] [] []).substitute ⟨[], EMPTY_REG⟩
      = some (FunctionType.mk [] [] []) :=
  have hct : Ty.UNIT.canonical = true := by
    simp [Ty.UNIT, Ty.canonical, TypeEnum.canonical, TypeEnum.least_upper_bound]
  have hvt : Ty.UNIT.validate false EMPTY_REG [] = vok := by
    simp [Ty.UNIT, Ty.validate]
  have hcf : (FunctionType.mk [] [] []).canonical = true := by
    simp [FunctionType.canonical, row_canonical]
  have hvf : (FunctionType.mk [] [] []).validate_var_len EMPTY_REG [] = vok := by
    simp [FunctionType.validate_var_len, validate_row, exts_validate, vbind, vok]
  have h := C9_empty_substitution_identity Ty.UNIT (FunctionType.mk [] [] []) false
    EMPTY_REG EMPTY_REG EMPTY_REG EMPTY_REG hct hvt hcf hvf
  ⟨hct, hvt, hcf, hvf, h.1, h.2⟩

/-- Claim C3: for a polymorphic scheme whose body validates against its
declared parameters, instantiating with a shorter argument list that
checks against the corresponding parameter prefix succeeds, leaving
exactly the remaining parameters bound; the substitution used replaces
each remaining parameter of type kind by a fresh use of itself
renumbered downward from index 0; and when the argument list in fact
covers all parameters, no parameter remains and the result's body is
that of `instantiate_all`. -/
theorem C3_instantiate_partial (p : PolyFuncType) (args : List TypeArg)
    (reg reg2 : ExtensionRegistry)
    (hlen : args.length ≤ p.params.length)
    (hval : p.body.validate_var_len reg p.params = vok)
    (hargs : check_type_args args (p.params.take args.length) = .ok ())
    (hwf : ∀ a ∈ args, a.well_formed_uses = true) :
    ∃ r, p.instantiate args reg2 = some (.ok r) ∧
      r.params = p.params.drop args.length ∧
      (∀ j b, p.params.get? (args.length + j) = some (.type b) →
        Ty.substitute (Ty.new_var_use (args.length + j) b)
          ⟨p.extended_args args, reg2⟩ = some [Ty.new_var_use j b]) ∧
      (args.length = p.params.length →
        r.params = [] ∧ p.instantiate_all args reg2 = some (.ok r.body)) := by
  have hget_lo : ∀ i, i < args.length →
      (p.extended_args args).get? i = args.get? i := by
    intro i hi
    unfold PolyFuncType.extended_args
    exact List.get?_append hi
  have hget_hi : ∀ j, (p.extended_args args).get? (args.length + j)
      = ((p.params.drop args.length).get? j).map
          fun d => TypeArg.new_var_use j d := by
    intro j
    unfold PolyFuncType.extended_args
    rw [List.get?_append_right (Nat.le_add_right _ _), Nat.add_sub_cancel_left,
      List.get?_map, List.get?_enum]
    cases (p.params.drop args.length).get? j <;> rfl
  have hfit0 := check_type_args_fit hargs
  have hfit : args_fit (p.extended_args args) p.params := by
    intro i q hq
    by_cases hi : i < args.length
    · have htake : (p.params.take args.length).get? i = some q := by
        rw [List.get?_take hi]
        exact hq
      obtain ⟨a, ha, hchk⟩ := hfit0 i q htake
      refine ⟨a, ?_, hchk⟩
      rw [hget_lo i hi]
      exact ha
    · have hj : args.length + (i - args.length) = i := by omega
      refine ⟨TypeArg.new_var_use (i - args.length) q, ?_, check_new_var_use _ q⟩
      have hg := hget_hi (i - args.length)
      rw [hj] at hg
      rw [hg, List.get?_drop, hj, hq]
      rfl
  have hextlen : (p.extended_args args).length = p.params.length := by
    unfold PolyFuncType.extended_args
    rw [List.length_append, List.length_map, List.enum_length, List.length_drop]
    omega
  have hwf_ext : ∀ a ∈ p.extended_args args, a.well_formed_uses = true := by
    intro a ha
    unfold PolyFuncType.extended_args at ha
    rw [List.mem_append] at ha
    rcases ha with h | h
    · exact hwf a h
    · rw [List.mem_map] at h
      obtain ⟨pr, hpr, hpr2⟩ := h
      rw [← hpr2]
      exact new_var_use_wf pr.1 pr.2
  have hchk_ext : check_type_args (p.extended_args args) p.params = .ok () := by
    apply check_type_args_of_fit hextlen
    intro i a q ha hq
    obtain ⟨a2, ha2, hchk2⟩ := hfit i q hq
    rw [ha] at ha2
    rw [Option.some.inj ha2]
    exact hchk2
  obtain ⟨ft, hs, _⟩ := subst_ok_fn p.body reg ⟨p.extended_args args, reg2⟩
    p.params hfit hwf_ext hval
  have hren : ∀ j b, p.params.get? (args.length + j) = some (.type b) →
      Ty.substitute (Ty.new_var_use (args.length + j) b)
        ⟨p.extended_args args, reg2⟩ = some [Ty.new_var_use j b] := by
    intro j b hj
    have hg := hget_hi j
    rw [List.get?_drop, hj] at hg
    simp only [Option.map_some'] at hg
    simp only [Ty.new_var_use]
    unfold Ty.substitute
    simp only [Substitution.apply_var]
    rw [hg]
    rfl
  by_cases hrem : (p.params.drop args.length).isEmpty
  · have hnil : p.params.drop args.length = [] := List.isEmpty_iff.mp hrem
    have hlen2 : args.length = p.params.length := by
      have := List.drop_eq_nil_iff_le.mp hnil
      omega
    have htake : p.params.take args.length = p.params := by
      rw [hlen2, List.take_length]
    rw [htake] at hargs
    obtain ⟨ft2, hs2, _⟩ := subst_ok_fn p.body reg ⟨args, reg2⟩ p.params
      (check_type_args_fit hargs) hwf hval
    have hia : p.instantiate_all args reg2 = some (.ok ft2) := by
      unfold PolyFuncType.instantiate_all
      rw [hargs, hs2]
    refine ⟨⟨p.params.drop args.length, ft2⟩, ?_, rfl, hren, fun _ => ⟨hnil, hia⟩⟩
    unfold PolyFuncType.instantiate
    rw [if_pos hrem, hia]
  · have hia2 : p.instantiate_all (p.extended_args args) reg2 = some (.ok ft) := by
      unfold PolyFuncType.instantiate_all
      rw [hchk_ext, hs]
    refine ⟨⟨p.params.drop args.length, ft⟩, ?_, rfl, hren, ?_⟩
    · unfold PolyFuncType.instantiate
      rw [if_neg hrem, hia2]
    · intro h
      refine absurd ?_ hrem
      rw [h, List.drop_length]
      rfl

/-- Claim C3, witnessed at a two-parameter scheme partially applied with
one argument: the bounded-nat parameter remains, renumbered to index 0. -/
theorem C3_instantiate_partial_witness :
    ([TypeArg.type Ty.UNIT] : List TypeArg).length
      ≤ ([TypeParam.type .any, TypeParam.boundedNat none] : List TypeParam).length ∧
    (FunctionType.mk [Ty.new_var_use 0 .any] [Ty.new_var_use 0 .any] []).validate_var_len
      EMPTY_REG [TypeParam.type .any, TypeParam.boundedNat none] = vok ∧
    check_type_args [TypeArg.type Ty.UNIT]
      (([TypeParam.type .any, TypeParam.boundedNat none] : List TypeParam).take
        ([TypeArg.type Ty.UNIT] : List TypeArg).length) = .ok () ∧
    (∀ a ∈ ([TypeArg.type Ty.UNIT] : List TypeArg), a.well_formed_uses = true) ∧
    ∃ r, PolyFuncType.instantiate
        ⟨[TypeParam.type .any, TypeParam.boundedNat none],
          FunctionType.mk [Ty.new_var_use 0 .any] [Ty.new_var_use 0 .any] []⟩
        [TypeArg.type Ty.UNIT] EMPTY_REG = some (.ok r) ∧
      r.params = ([TypeParam.type .any, TypeParam.boundedNat none] : List TypeParam).drop
        ([TypeArg.type Ty.UNIT] : List TypeArg).length ∧
      (∀ j b, ([TypeParam.type .any, TypeParam.boundedNat none] : List TypeParam).get?
          (([TypeArg.type Ty.UNIT] : List TypeArg).length + j) = some (.type b) →
        Ty.substitute
          (Ty.new_var_use (([TypeArg.type Ty.UNIT] : List TypeArg).length + j) b)
          ⟨PolyFuncType.extended_args
              ⟨[TypeParam.type .any, TypeParam.boundedNat none],
                FunctionType.mk [Ty.new_var_use 0 .any] [Ty.new_var_use 0 .any] []⟩
              [TypeArg.type Ty.UNIT], EMPTY_REG⟩ = some [Ty.new_var_use j b]) ∧
      (([TypeArg.type Ty.UNIT] : List TypeArg).length
          = ([TypeParam.type .any, TypeParam.boundedNat none] : List TypeParam).length →
        r.params = [] ∧ PolyFuncType.instantiate_all
          ⟨[TypeParam.type .any, TypeParam.boundedNat none],
            FunctionType.mk [Ty.new_var_use 0 .any] [Ty.new_var_use 0 .any] []⟩
          [TypeArg.type Ty.UNIT] EMPTY_REG = some (.ok r.body)) :=
  have hlen : ([TypeArg.type Ty.UNIT] : List TypeArg).length
      ≤ ([TypeParam.type .any, TypeParam.boundedNat none] : List TypeParam).length := by
    decide
  have hval : (FunctionType.mk [Ty.new_var_use 0 .any] [Ty.new_var_use 0 .any]
      []).validate_var_len EMPTY_REG
      [TypeParam.type .any, TypeParam.boundedNat none] = vok := by
    unfold FunctionType.validate_var_len validate_row Ty.validate
    simp [Ty.new_var_use, check_typevar_decl, vbind, vok, exts_validate, validate_row]
  have hargs : check_type_args [TypeArg.type Ty.UNIT]
      (([TypeParam.type .any, TypeParam.boundedNat none] : List TypeParam).take
        ([TypeArg.type Ty.UNIT] : List TypeArg).length) = .ok () := by
    unfold check_type_args
    simp [List.take, check_type_args.go, check_type_arg, Ty.UNIT, Ty.is_row_var,
      Ty.least_upper_bound, TypeBound.contains]
  have hwf : ∀ a ∈ ([TypeArg.type Ty.UNIT] : List TypeArg),
      a.well_formed_uses = true := by
    intro a ha
    simp only [List.mem_singleton] at ha
    subst ha
    rfl
  ⟨hlen, hval, hargs, hwf,
    C3_instantiate_partial
      ⟨[TypeParam.type .any, TypeParam.boundedNat none],
        FunctionType.mk [Ty.new_var_use 0 .any] [Ty.new_var_use 0 .any] []⟩
      [TypeArg.type Ty.UNIT] EMPTY_REG EMPTY_REG hlen hval hargs hwf⟩
